import Mathlib

/-!
# docker-go-check-ssl: the `/check-ssl` handler

A shallow embedding of `src/main.go`.  The handler `checkSSLHandler` is the only function
with logic; it calls into Go's standard library (`net/url`, `net`, `crypto/tls`,
`crypto/x509`, `net/http`, `encoding/json`).

* Go strings are byte sequences.  A byte is a natural number below 256 and a Go string is
  a list of them (`GoString`); `ascii "..."` writes an ASCII literal.
* `url.Parse` is embedded from the Go standard library (`net/url`, as of Go 1.22), down to
  the error conditions and the `Host` field, which is all the handler reads.
* The network and the X.509 verifier are parameters (`Lib`): a dial either fails with an
  error text or yields the peer certificates, verification either succeeds or fails with
  an error text.
* The handler is a function from the request's query values to the trace of the calls it
  makes (`Event`): the TLS dial, the verification, the writes to the response.
-/

set_option autoImplicit false

/-- A Go string: a sequence of bytes, each byte a natural number below 256. -/
abbrev GoString := List Nat

/-- An ASCII string literal as a Go string. -/
def ascii (s : String) : GoString := s.toList.map Char.toNat

/-! ## Package `strings` (the functions `net/url` uses) -/

namespace strings

/-- Go `strings.Cut(s, sep)` for a one-byte `sep`: the text before the first `sep`, the
text after it, and whether `sep` was found; `(s, "", false)` when it is absent. -/
def Cut (s : GoString) (sep : Nat) : GoString × GoString × Bool :=
  (s.takeWhile (fun b => b != sep), (s.dropWhile (fun b => b != sep)).drop 1,
    s.contains sep)

/-- Go `strings.Contains(s, sep)` for a one-byte `sep`. -/
def Contains (s : GoString) (sep : Nat) : Bool := s.contains sep

/-- Go `strings.Count(s, sep)` for a one-byte `sep`. -/
def Count (s : GoString) (sep : Nat) : Nat := s.count sep

/-- Go `strings.HasPrefix(s, p)`. -/
def StartsWith (s p : GoString) : Bool := p.isPrefixOf s

/-- Go `strings.HasSuffix(s, p)`. -/
def EndsWith (s p : GoString) : Bool := p.reverse.isPrefixOf s.reverse

/-- Go `strings.Index(s, sep)`: the index of the first occurrence of `sep` in `s`. -/
def Index : GoString → GoString → Option Nat
  | [], sep => if sep = [] then some 0 else none
  | b :: t, sep =>
    if sep.isPrefixOf (b :: t) then some 0 else (Index t sep).map (fun i => i + 1)

/-- Go `strings.LastIndex(s, sep)` for a one-byte `sep`: the index of its last
occurrence. -/
def LastIndex : GoString → Nat → Option Nat
  | [], _ => none
  | b :: t, sep =>
    match LastIndex t sep with
    | some i => some (i + 1)
    | none => if b = sep then some 0 else none

/-- Go `strings.ToLower` on one byte (ASCII letters only). -/
def lowerByte (b : Nat) : Nat := if 65 ≤ b ∧ b ≤ 90 then b + 32 else b

/-- Go `strings.ToLower` (the scheme it is applied to is ASCII). -/
def ToLower (s : GoString) : GoString := s.map lowerByte

end strings

/-! ## Package `net/url` -/

namespace url

/-- The `encoding` modes of `net/url`. -/
inductive encoding
  | encodePath
  | encodePathSegment
  | encodeHost
  | encodeZone
  | encodeUserPassword
  | encodeQueryComponent
  | encodeFragment
  deriving DecidableEq, Repr

/-- Go `url.Userinfo`: a username and an optional password. -/
structure Userinfo where
  username : GoString
  password : GoString
  passwordSet : Bool
  deriving DecidableEq, Repr

/-- Go `url.URL` (without `RawPath` and `RawFragment`, the encoding hints). -/
structure URL where
  Scheme : GoString := []
  Opaque : GoString := []
  User : Option Userinfo := none
  Host : GoString := []
  Path : GoString := []
  OmitHost : Bool := false
  ForceQuery : Bool := false
  RawQuery : GoString := []
  Fragment : GoString := []
  deriving DecidableEq, Repr

/-- ASCII letter. -/
def isAlpha (c : Nat) : Bool := (97 ≤ c && c ≤ 122) || (65 ≤ c && c ≤ 90)

/-- ASCII digit. -/
def isDigit (c : Nat) : Bool := 48 ≤ c && c ≤ 57

/-- Go `ishex`. -/
def ishex (c : Nat) : Bool :=
  (48 ≤ c && c ≤ 57) || (97 ≤ c && c ≤ 102) || (65 ≤ c && c ≤ 70)

/-- Go `unhex`. -/
def unhex (c : Nat) : Nat :=
  if 48 ≤ c ∧ c ≤ 57 then c - 48
  else if 97 ≤ c ∧ c ≤ 102 then c - 97 + 10
  else if 65 ≤ c ∧ c ≤ 70 then c - 65 + 10
  else 0

/-- Go `stringContainsCTLByte`: some byte is below space or is DEL. -/
def stringContainsCTLByte (s : GoString) : Bool := s.any (fun b => b < 32 || b == 127)

/-- Go `shouldEscape(c, mode)`. -/
def shouldEscape (c : Nat) (mode : encoding) : Bool :=
  if isAlpha c || isDigit c then false
  else if (mode = .encodeHost ∨ mode = .encodeZone) ∧
      c ∈ [33, 36, 38, 39, 40, 41, 42, 43, 44, 59, 61, 58, 91, 93, 60, 62, 34] then false
  else if c ∈ [45, 95, 46, 126] then false
  else if c ∈ [36, 38, 43, 44, 47, 58, 59, 61, 63, 64] ∧ mode = .encodePath then c == 63
  else if c ∈ [36, 38, 43, 44, 47, 58, 59, 61, 63, 64] ∧ mode = .encodePathSegment then
    c == 47 || c == 59 || c == 44 || c == 63
  else if c ∈ [36, 38, 43, 44, 47, 58, 59, 61, 63, 64] ∧ mode = .encodeUserPassword then
    c == 64 || c == 47 || c == 63 || c == 58
  else if c ∈ [36, 38, 43, 44, 47, 58, 59, 61, 63, 64] ∧ mode = .encodeQueryComponent then
    true
  else if c ∈ [36, 38, 43, 44, 47, 58, 59, 61, 63, 64] ∧ mode = .encodeFragment then false
  else if mode = .encodeFragment ∧ c ∈ [33, 40, 41, 42] then false
  else true

/-- First loop of Go `unescape`: reject a malformed `%` escape, an escape the mode does
not allow, and (for hosts and zones) an ASCII byte that would need escaping. -/
def unescapeCheck (mode : encoding) : GoString → Except String Unit
  | [] => .ok ()
  | c :: t =>
    if c = 37 then
      match t with
      | a :: b :: t2 =>
        if !ishex a || !ishex b then .error "invalid URL escape"
        else if mode = .encodeHost ∧ unhex a < 8 ∧ [c, a, b] ≠ [37, 50, 53] then
          .error "invalid URL escape"
        else if mode = .encodeZone ∧ [c, a, b] ≠ [37, 50, 53] ∧
            unhex a * 16 + unhex b ≠ 32 ∧
            shouldEscape (unhex a * 16 + unhex b) .encodeHost then
          .error "invalid URL escape"
        else unescapeCheck mode t2
      | _ => .error "invalid URL escape"
    else if (mode = .encodeHost ∨ mode = .encodeZone) ∧ c ≠ 43 ∧ c < 128 ∧
        shouldEscape c mode then
      .error "invalid character in host name"
    else unescapeCheck mode t

/-- Second loop of Go `unescape`: replace each `%XY` by the byte it names and, in a query
component, `+` by a space.  (Go returns the input itself when it has no `%` and no such
`+`; the loop then copies every byte, so the result is the same.  A `%` with fewer than
two bytes after it does not reach this loop: the first loop rejects it.) -/
def unescapeDecode (mode : encoding) : GoString → GoString
  | [] => []
  | c :: t =>
    if c = 37 then
      match t with
      | a :: b :: t2 => (unhex a * 16 + unhex b) :: unescapeDecode mode t2
      | rest => c :: rest
    else if c = 43 ∧ mode = .encodeQueryComponent then 32 :: unescapeDecode mode t
    else c :: unescapeDecode mode t

/-- Go `unescape(s, mode)`. -/
def unescape (s : GoString) (mode : encoding) : Except String GoString :=
  match unescapeCheck mode s with
  | .error e => .error e
  | .ok () => .ok (unescapeDecode mode s)

/-- The loop of Go `getScheme`, at index `i` with `rawURL[i:]` still to read. -/
def getSchemeLoop (rawURL : GoString) : Nat → GoString → Except String (GoString × GoString)
  | _, [] => .ok ([], rawURL)
  | i, c :: t =>
    if isAlpha c then getSchemeLoop rawURL (i + 1) t
    else if isDigit c || c == 43 || c == 45 || c == 46 then
      if i = 0 then .ok ([], rawURL) else getSchemeLoop rawURL (i + 1) t
    else if c = 58 then
      if i = 0 then .error "missing protocol scheme" else .ok (rawURL.take i, t)
    else .ok ([], rawURL)

/-- Go `getScheme(rawURL)`: the scheme and the text after its colon, or no scheme and
the whole text. -/
def getScheme (rawURL : GoString) : Except String (GoString × GoString) :=
  getSchemeLoop rawURL 0 rawURL

/-- Go `validOptionalPort(port)`: empty, or a colon followed by digits only. -/
def validOptionalPort (port : GoString) : Bool :=
  match port with
  | [] => true
  | c :: t => c == 58 && t.all isDigit

/-- Go `validUserinfo(s)`. -/
def validUserinfo (s : GoString) : Bool :=
  s.all (fun r => isAlpha r || isDigit r ||
    r ∈ [45, 46, 95, 58, 126, 33, 36, 38, 39, 40, 41, 42, 43, 44, 59, 61, 37, 64])

/-- Go `parseHost(host)`. -/
def parseHost (host : GoString) : Except String GoString :=
  if strings.StartsWith host [91] then
    match strings.LastIndex host 93 with
    | none => .error "missing ']' in host"
    | some i =>
      if !validOptionalPort (host.drop (i + 1)) then .error "invalid port after host"
      else
        match strings.Index (host.take i) [37, 50, 53] with
        | some zone =>
          match unescape (host.take zone) .encodeHost with
          | .error e => .error e
          | .ok host1 =>
            match unescape ((host.take i).drop zone) .encodeZone with
            | .error e => .error e
            | .ok host2 =>
              match unescape (host.drop i) .encodeHost with
              | .error e => .error e
              | .ok host3 => .ok (host1 ++ host2 ++ host3)
        | none => unescape host .encodeHost
  else
    match strings.LastIndex host 58 with
    | some i =>
      if !validOptionalPort (host.drop i) then .error "invalid port after host"
      else unescape host .encodeHost
    | none => unescape host .encodeHost

/-- Go `parseAuthority(authority)`: the user information and the host. -/
def parseAuthority (authority : GoString) : Except String (Option Userinfo × GoString) :=
  let i := strings.LastIndex authority 64
  let hostPart := match i with
    | none => authority
    | some i => authority.drop (i + 1)
  match parseHost hostPart with
  | .error e => .error e
  | .ok host =>
    match i with
    | none => .ok (none, host)
    | some i =>
      let userinfo := authority.take i
      if !validUserinfo userinfo then .error "net/url: invalid userinfo"
      else if !strings.Contains userinfo 58 then
        match unescape userinfo .encodeUserPassword with
        | .error e => .error e
        | .ok u => .ok (some ⟨u, [], false⟩, host)
      else
        match unescape (strings.Cut userinfo 58).1 .encodeUserPassword with
        | .error e => .error e
        | .ok username =>
          match unescape (strings.Cut userinfo 58).2.1 .encodeUserPassword with
          | .error e => .error e
          | .ok password => .ok (some ⟨username, password, true⟩, host)

/-- The query split of Go `parse`: the text before the query, `ForceQuery` and `RawQuery`.
A lone final `?` is dropped and sets `ForceQuery`; otherwise the text is cut at the first
`?`. -/
def splitQuery (rest : GoString) : GoString × Bool × GoString :=
  if strings.EndsWith rest [63] && strings.Count rest 63 == 1 then (rest.dropLast, true, [])
  else ((strings.Cut rest 63).1, false, (strings.Cut rest 63).2.1)

/-- The authority split of Go `parse`, applied to the text after `//`: the authority, up
to the first `/`, and the path from that `/` on. -/
def splitAuthority (s : GoString) : GoString × GoString :=
  match strings.Index s [47] with
  | some i => (s.take i, s.drop i)
  | none => (s, [])

/-- Go `parse` (with `viaRequest = false`) from the point where the scheme is lowered and
the query is split off: the opaque form, the colon check on a relative path, the authority
and the path. -/
def parseAfterScheme (scheme rest : GoString) (forceQuery : Bool) (rawQuery : GoString) :
    Except String URL :=
  if !strings.StartsWith rest [47] && scheme != [] then
    .ok { Scheme := scheme, Opaque := rest, ForceQuery := forceQuery, RawQuery := rawQuery }
  else if !strings.StartsWith rest [47] && strings.Contains (strings.Cut rest 47).1 58 then
    .error "first path segment in URL cannot contain colon"
  else if (scheme != [] || !strings.StartsWith rest [47, 47, 47]) &&
      strings.StartsWith rest [47, 47] then
    match parseAuthority (splitAuthority (rest.drop 2)).1 with
    | .error e => .error e
    | .ok (user, host) =>
      match unescape (splitAuthority (rest.drop 2)).2 .encodePath with
      | .error e => .error e
      | .ok path =>
        .ok { Scheme := scheme, User := user, Host := host, Path := path,
              ForceQuery := forceQuery, RawQuery := rawQuery }
  else
    match unescape rest .encodePath with
    | .error e => .error e
    | .ok path =>
      .ok { Scheme := scheme, Path := path,
            OmitHost := scheme != [] && strings.StartsWith rest [47],
            ForceQuery := forceQuery, RawQuery := rawQuery }

/-- Go `parse(rawURL, viaRequest)` with `viaRequest = false`, as `Parse` calls it. -/
def parse (rawURL : GoString) : Except String URL :=
  if stringContainsCTLByte rawURL then .error "net/url: invalid control character in URL"
  else if rawURL = [42] then .ok { Path := [42] }
  else
    match getScheme rawURL with
    | .error e => .error e
    | .ok (scheme, rest) =>
      parseAfterScheme (strings.ToLower scheme) (splitQuery rest).1 (splitQuery rest).2.1
        (splitQuery rest).2.2

/-- Go `url.Parse(rawURL)`: cut the fragment off at the first `#`, parse the rest, then
set the fragment. -/
def Parse (rawURL : GoString) : Except String URL :=
  match parse (strings.Cut rawURL 35).1 with
  | .error e => .error e
  | .ok u =>
    if (strings.Cut rawURL 35).2.1 = [] then .ok u
    else
      match unescape (strings.Cut rawURL 35).2.1 .encodeFragment with
      | .error e => .error e
      | .ok frag => .ok { u with Fragment := frag }

end url

/-! ## Package `net` -/

namespace net

/-- Go `net.Dialer`, with the one field the handler sets (nanoseconds). -/
structure Dialer where
  Timeout : Nat
  deriving DecidableEq, Repr

/-- Go `net.JoinHostPort(host, port)`: `host:port`, with `host` in brackets when it
contains a colon. -/
def JoinHostPort (host port : GoString) : GoString :=
  if host.contains 58 then [91] ++ host ++ [93, 58] ++ port else host ++ [58] ++ port

end net

/-! ## Package `time` -/

namespace time

/-- Go `time.Second`, in nanoseconds. -/
def Second : Nat := 1000000000

/-- Go `time.Location`, as far as the handler distinguishes locations. -/
inductive Location
  | UTC
  | other (name : GoString)
  deriving DecidableEq, Repr

/-- Go `time.Time`: an instant (nanoseconds since the epoch) shown in a location. -/
structure Time where
  instant : Int
  loc : Location
  deriving DecidableEq, Repr

/-- Go `Time.UTC()`: the same instant with the location set to UTC. -/
def Time.UTC (t : Time) : Time := { t with loc := .UTC }

end time

/-! ## Packages `crypto/x509` and `crypto/tls` -/

namespace x509

/-- Go `pkix.Name`, kept as the text its `String` method renders. -/
structure Name where
  text : GoString
  deriving DecidableEq, Repr

/-- Go `pkix.Name.String()`. -/
def Name.String (n : Name) : GoString := n.text

/-- Go `x509.SignatureAlgorithm`, kept as the text its `String` method renders. -/
structure SignatureAlgorithm where
  text : GoString
  deriving DecidableEq, Repr

/-- Go `x509.SignatureAlgorithm.String()`. -/
def SignatureAlgorithm.String (a : SignatureAlgorithm) : GoString := a.text

/-- Go `x509.Certificate`: the encoding and the decoded fields the handler reads. -/
structure Certificate where
  Raw : GoString
  Subject : Name
  Issuer : Name
  NotBefore : time.Time
  NotAfter : time.Time
  DNSNames : List GoString
  IsCA : Bool
  SignatureAlgorithm : SignatureAlgorithm
  deriving DecidableEq, Repr

/-- Go `x509.CertPool`: the certificates added, in order. -/
structure CertPool where
  certs : List Certificate
  deriving DecidableEq, Repr

/-- Go `x509.NewCertPool()`. -/
def NewCertPool : CertPool := ⟨[]⟩

/-- Go `CertPool.AddCert(cert)`: a certificate already in the pool is not added twice.
(Go recognises a certificate by the hash of its encoding, which determines the decoded
certificate; the embedding compares the certificates.) -/
def CertPool.AddCert (s : CertPool) (cert : Certificate) : CertPool :=
  if cert ∈ s.certs then s else ⟨s.certs ++ [cert]⟩

/-- Go `x509.VerifyOptions`, with the two fields the handler sets. -/
structure VerifyOptions where
  DNSName : GoString
  Intermediates : CertPool
  deriving DecidableEq, Repr

end x509

namespace tls

/-- Go `tls.Config`, with the two fields the handler sets. -/
structure Config where
  ServerName : GoString
  InsecureSkipVerify : Bool
  deriving DecidableEq, Repr

/-- Go `tls.Conn` after the handshake: `ConnectionState().PeerCertificates`. -/
structure Conn where
  PeerCertificates : List x509.Certificate
  deriving DecidableEq, Repr

end tls

/-! ## Package `net/http` -/

namespace http

/-- Go `http.StatusBadRequest`. -/
def StatusBadRequest : Nat := 400

/-- Go `http.StatusInternalServerError`. -/
def StatusInternalServerError : Nat := 500

end http

/-! ## `src/main.go` -/

/-- Go `CertInfo` (main.go, lines 16-24). -/
structure CertInfo where
  Subject : GoString
  Issuer : GoString
  NotBefore : time.Time
  NotAfter : time.Time
  DNSNames : List GoString := []
  IsCA : Bool
  SignatureAlgo : GoString
  deriving DecidableEq, Repr

/-- Go `Response` (main.go, lines 27-31). -/
structure Response where
  TargetURL : GoString
  Certificates : List CertInfo
  ChainValidation : GoString
  deriving DecidableEq, Repr

/-- The query values of the request, Go `url.Values`: the values given for each key. -/
abbrev Values := GoString → List GoString

/-- Go `Values.Get(key)`: the first value of the key, or the empty string. -/
def Values.Get (v : Values) (key : GoString) : GoString :=
  match v key with
  | [] => []
  | x :: _ => x

/-- What the handler calls from outside the program: `url.Parse`, the TLS dial (an error
text, or the connection) and `Certificate.Verify` (`none`, or the error text). -/
structure Lib where
  Parse : GoString → Except String url.URL
  DialWithDialer : net.Dialer → GoString → GoString → tls.Config → Except GoString tls.Conn
  Verify : x509.Certificate → x509.VerifyOptions → Option GoString

/-- The calls the handler makes, in order: `tls.DialWithDialer(dialer, network, address,
config)`, `certs[0].Verify(opts)`, `http.Error(w, body, code)`,
`w.Header().Set(key, value)`, `json.NewEncoder(w).Encode(payload)` and the deferred
`conn.Close()`. -/
inductive Event
  | DialWithDialer (dialer : net.Dialer) (network address : GoString) (config : tls.Config)
  | Verify (leaf : x509.Certificate) (opts : x509.VerifyOptions)
  | Error (body : GoString) (code : Nat)
  | HeaderSet (key value : GoString)
  | Encode (payload : Response)
  | Close
  deriving DecidableEq, Repr

/-- The variable `hostname` after main.go, lines 44-48: the host of the parsed value, else
the host of the value parsed behind `https://`, else the value itself. -/
def checkSSLHandler.hostname (Parse : GoString → Except String url.URL)
    (hostname : GoString) : GoString :=
  let retry : GoString :=
    match Parse (ascii "https://" ++ hostname) with
    | .ok u => if u.Host ≠ [] then u.Host else hostname
    | .error _ => hostname
  match Parse hostname with
  | .ok u => if u.Host ≠ [] then u.Host else retry
  | .error _ => retry

/-- The body of the loop of main.go, lines 70-83: the summary of `cert` at index `i`. -/
def checkSSLHandler.info (i : Nat) (cert : x509.Certificate) : CertInfo :=
  let info : CertInfo :=
    { Subject := cert.Subject.String
      Issuer := cert.Issuer.String
      NotBefore := cert.NotBefore.UTC
      NotAfter := cert.NotAfter.UTC
      IsCA := cert.IsCA
      SignatureAlgo := cert.SignatureAlgorithm.String }
  if i = 0 then { info with DNSNames := cert.DNSNames } else info

/-- The loop of main.go, lines 70-83, at index `i` with `certInfos` built so far. -/
def checkSSLHandler.certInfosLoop :
    Nat → List x509.Certificate → List CertInfo → List CertInfo
  | _, [], certInfos => certInfos
  | i, cert :: rest, certInfos =>
    checkSSLHandler.certInfosLoop (i + 1) rest (certInfos ++ [checkSSLHandler.info i cert])

/-- The variable `certInfos` after main.go, lines 69-83. -/
def checkSSLHandler.certInfos (certs : List x509.Certificate) : List CertInfo :=
  checkSSLHandler.certInfosLoop 0 certs []

/-- The loop of main.go, lines 86-90, at index `i` with the pool built so far. -/
def checkSSLHandler.intermediatesLoop :
    Nat → List x509.Certificate → x509.CertPool → x509.CertPool
  | _, [], pool => pool
  | i, cert :: rest, pool =>
    checkSSLHandler.intermediatesLoop (i + 1) rest (if i > 0 then pool.AddCert cert else pool)

/-- The variable `intermediates` after main.go, lines 85-90. -/
def checkSSLHandler.intermediates (certs : List x509.Certificate) : x509.CertPool :=
  checkSSLHandler.intermediatesLoop 0 certs x509.NewCertPool

/-- The variable `validationMessage` after main.go, lines 97-100, from the error of
`certs[0].Verify` (`none` for no error). -/
def checkSSLHandler.validationMessage (err : Option GoString) : GoString :=
  match err with
  | none => ascii "Certificate chain is valid."
  | some e => ascii "Certificate chain verification failed: " ++ e

/-- Go `checkSSLHandler` (main.go, lines 34-110): the calls it makes for a request with the
given query values. -/
def checkSSLHandler (L : Lib) (query : Values) : List Event :=
  let ip := query.Get (ascii "ip")
  let hostname := query.Get (ascii "url")
  if ip = [] ∨ hostname = [] then
    [.Error (ascii "\x7b\"error\": \"Query parameters 'ip' and 'url' are required.\"\x7d")
      http.StatusBadRequest]
  else
    let hostname := checkSSLHandler.hostname L.Parse hostname
    let address := net.JoinHostPort ip (ascii "443")
    let dialer : net.Dialer := { Timeout := 5 * time.Second }
    let config : tls.Config := { ServerName := hostname, InsecureSkipVerify := true }
    match L.DialWithDialer dialer (ascii "tcp") address config with
    | .error err =>
      [.DialWithDialer dialer (ascii "tcp") address config,
       .Error (ascii "\x7b\"error\": \"Failed to connect via TLS: " ++ err ++ ascii "\"\x7d")
         http.StatusInternalServerError]
    | .ok conn =>
      match conn.PeerCertificates with
      | [] =>
        [.DialWithDialer dialer (ascii "tcp") address config,
         .Error (ascii "\x7b\"error\": \"Server did not provide any certificates.\"\x7d")
           http.StatusInternalServerError,
         .Close]
      | leaf :: others =>
        let certs := leaf :: others
        let certInfos := checkSSLHandler.certInfos certs
        let intermediates := checkSSLHandler.intermediates certs
        let validationOpts : x509.VerifyOptions :=
          { DNSName := hostname, Intermediates := intermediates }
        let validationMessage :=
          checkSSLHandler.validationMessage (L.Verify leaf validationOpts)
        let responsePayload : Response :=
          { TargetURL := ascii "https://" ++ hostname
            Certificates := certInfos
            ChainValidation := validationMessage }
        [.DialWithDialer dialer (ascii "tcp") address config,
         .Verify leaf validationOpts,
         .HeaderSet (ascii "Content-Type") (ascii "application/json"),
         .Encode responsePayload,
         .Close]

/-- The library with Go's `url.Parse` and a given network and verifier. -/
def goLib
    (dial : net.Dialer → GoString → GoString → tls.Config → Except GoString tls.Conn)
    (verify : x509.Certificate → x509.VerifyOptions → Option GoString) : Lib :=
  { Parse := url.Parse, DialWithDialer := dial, Verify := verify }

/-- The result of the TLS dial the handler makes for a request (main.go, lines 50-56). -/
def checkSSLHandler.dialed (L : Lib) (query : Values) : Except GoString tls.Conn :=
  L.DialWithDialer { Timeout := 5 * time.Second } (ascii "tcp")
    (net.JoinHostPort (query.Get (ascii "ip")) (ascii "443"))
    { ServerName := checkSSLHandler.hostname L.Parse (query.Get (ascii "url"))
      InsecureSkipVerify := true }

/-- The dial event of a request (main.go, lines 50-56). -/
def checkSSLHandler.dialEvent (L : Lib) (query : Values) : Event :=
  .DialWithDialer { Timeout := 5 * time.Second } (ascii "tcp")
    (net.JoinHostPort (query.Get (ascii "ip")) (ascii "443"))
    { ServerName := checkSSLHandler.hostname L.Parse (query.Get (ascii "url"))
      InsecureSkipVerify := true }

/-- The options the handler verifies the chain `certs` with (main.go, lines 85-95). -/
def checkSSLHandler.validationOpts (L : Lib) (query : Values)
    (certs : List x509.Certificate) : x509.VerifyOptions :=
  { DNSName := checkSSLHandler.hostname L.Parse (query.Get (ascii "url"))
    Intermediates := checkSSLHandler.intermediates certs }

/-- The body of the 400 response. -/
def missingParametersBody : GoString :=
  ascii "\x7b\"error\": \"Query parameters 'ip' and 'url' are required.\"\x7d"

/-- The body of the 500 response to a failed dial with error text `err`. -/
def connectFailedBody (err : GoString) : GoString :=
  ascii "\x7b\"error\": \"Failed to connect via TLS: " ++ err ++ ascii "\"\x7d"

/-- The body of the 500 response to an empty certificate list. -/
def noCertificatesBody : GoString :=
  ascii "\x7b\"error\": \"Server did not provide any certificates.\"\x7d"

/-- A byte of a host name as written in `host:port`: a letter, a digit, `-` or `.`. -/
def isHostByte (c : Nat) : Bool := url.isAlpha c || url.isDigit c || c == 45 || c == 46

/-- Whether a string starts with a URL scheme, as Go's `getScheme` reads one: a letter,
then letters, digits, `+`, `-` or `.`, then a colon (`https:` does, `example.com` does
not). -/
def hasScheme (s : GoString) : Bool :=
  match url.getScheme s with
  | .ok (scheme, _) => scheme != []
  | .error _ => false

/-! ## Concrete requests -/

/-- A leaf certificate for `example.com`. -/
def exampleLeaf : x509.Certificate :=
  { Raw := [48, 1]
    Subject := ⟨ascii "CN=example.com"⟩
    Issuer := ⟨ascii "CN=Example CA"⟩
    NotBefore := ⟨1700000000000000000, .other (ascii "Local")⟩
    NotAfter := ⟨1800000000000000000, .other (ascii "Local")⟩
    DNSNames := [ascii "example.com", ascii "www.example.com"]
    IsCA := false
    SignatureAlgorithm := ⟨ascii "SHA256-RSA"⟩ }

/-- An intermediate certificate, the issuer of `exampleLeaf`. -/
def exampleCA : x509.Certificate :=
  { Raw := [48, 2]
    Subject := ⟨ascii "CN=Example CA"⟩
    Issuer := ⟨ascii "CN=Example Root"⟩
    NotBefore := ⟨1600000000000000000, .UTC⟩
    NotAfter := ⟨1900000000000000000, .UTC⟩
    DNSNames := [ascii "ca.example.com"]
    IsCA := true
    SignatureAlgorithm := ⟨ascii "SHA256-RSA"⟩ }

/-- The query values of `/check-ssl?ip=<ip>&url=<url>`. -/
def exampleQuery (ip url : GoString) : Values := fun key =>
  if key = ascii "ip" then [ip] else if key = ascii "url" then [url] else []

/-- Go's `url.Parse` with a server that presents the chain `certs` and a verifier that
answers `verr`. -/
def exampleLib (certs : List x509.Certificate) (verr : Option GoString) : Lib :=
  goLib (fun _ _ _ _ => .ok ⟨certs⟩) (fun _ _ => verr)

/-- Go's `url.Parse` with a server that refuses the connection. -/
def refusingLib : Lib :=
  goLib (fun _ _ _ _ => .error (ascii "dial tcp 192.0.2.1:443: connect: connection refused"))
    (fun _ _ => none)

/-! ## The handler, case by case -/

theorem checkSSLHandler_missing (L : Lib) (query : Values)
    (h : query.Get (ascii "ip") = [] ∨ query.Get (ascii "url") = []) :
    checkSSLHandler L query = [.Error missingParametersBody 400] := by
  simp only [checkSSLHandler, if_pos h]
  rfl

theorem checkSSLHandler_dial_error (L : Lib) (query : Values) (err : GoString)
    (h : ¬ (query.Get (ascii "ip") = [] ∨ query.Get (ascii "url") = []))
    (hd : checkSSLHandler.dialed L query = .error err) :
    checkSSLHandler L query =
      [checkSSLHandler.dialEvent L query, .Error (connectFailedBody err) 500] := by
  simp only [checkSSLHandler.dialed] at hd
  simp only [checkSSLHandler, if_neg h, hd]
  rfl

theorem checkSSLHandler_no_certs (L : Lib) (query : Values) (conn : tls.Conn)
    (h : ¬ (query.Get (ascii "ip") = [] ∨ query.Get (ascii "url") = []))
    (hd : checkSSLHandler.dialed L query = .ok conn) (hc : conn.PeerCertificates = []) :
    checkSSLHandler L query =
      [checkSSLHandler.dialEvent L query, .Error noCertificatesBody 500, .Close] := by
  simp only [checkSSLHandler.dialed] at hd
  simp only [checkSSLHandler, if_neg h, hd, hc]
  rfl

theorem checkSSLHandler_success (L : Lib) (query : Values) (conn : tls.Conn)
    (leaf : x509.Certificate) (others : List x509.Certificate)
    (h : ¬ (query.Get (ascii "ip") = [] ∨ query.Get (ascii "url") = []))
    (hd : checkSSLHandler.dialed L query = .ok conn)
    (hc : conn.PeerCertificates = leaf :: others) :
    checkSSLHandler L query =
      [checkSSLHandler.dialEvent L query,
       .Verify leaf (checkSSLHandler.validationOpts L query (leaf :: others)),
       .HeaderSet (ascii "Content-Type") (ascii "application/json"),
       .Encode
         { TargetURL :=
             ascii "https://" ++ checkSSLHandler.hostname L.Parse (query.Get (ascii "url"))
           Certificates := checkSSLHandler.certInfos (leaf :: others)
           ChainValidation := checkSSLHandler.validationMessage
             (L.Verify leaf (checkSSLHandler.validationOpts L query (leaf :: others))) },
       .Close] := by
  simp only [checkSSLHandler.dialed] at hd
  simp only [checkSSLHandler, if_neg h, hd, hc]
  rfl

/-! ## The two loops over the chain -/

theorem certInfosLoop_eq (certs : List x509.Certificate) (i : Nat) (acc : List CertInfo) :
    checkSSLHandler.certInfosLoop i certs acc =
      acc ++ (certs.enumFrom i).map (fun p => checkSSLHandler.info p.1 p.2) := by
  induction certs generalizing i acc with
  | nil => simp [checkSSLHandler.certInfosLoop]
  | cons cert rest ih =>
    simp [checkSSLHandler.certInfosLoop, ih, List.enumFrom_cons, List.append_assoc]

theorem certInfos_eq (certs : List x509.Certificate) :
    checkSSLHandler.certInfos certs =
      (certs.enumFrom 0).map (fun p => checkSSLHandler.info p.1 p.2) := by
  simp [checkSSLHandler.certInfos, certInfosLoop_eq]

theorem certInfos_getElem? (certs : List x509.Certificate) (i : Nat) :
    (checkSSLHandler.certInfos certs)[i]? = (certs[i]?).map (checkSSLHandler.info i) := by
  rw [certInfos_eq, List.getElem?_map, List.getElem?_enumFrom]
  cases certs[i]? <;> simp

theorem mem_AddCert (pool : x509.CertPool) (cert c : x509.Certificate) :
    c ∈ (pool.AddCert cert).certs ↔ c ∈ pool.certs ∨ c = cert := by
  unfold x509.CertPool.AddCert
  by_cases h : cert ∈ pool.certs
  · simp only [if_pos h]
    constructor
    · intro hc; exact Or.inl hc
    · rintro (hc | rfl)
      · exact hc
      · exact h
  · simp [if_neg h]

theorem mem_intermediatesLoop (certs : List x509.Certificate) (i : Nat) (hi : 0 < i)
    (pool : x509.CertPool) (c : x509.Certificate) :
    c ∈ (checkSSLHandler.intermediatesLoop i certs pool).certs ↔ c ∈ pool.certs ∨ c ∈ certs := by
  induction certs generalizing i pool with
  | nil => simp [checkSSLHandler.intermediatesLoop]
  | cons cert rest ih =>
    simp only [checkSSLHandler.intermediatesLoop, if_pos hi]
    rw [ih (i + 1) (Nat.succ_pos i), mem_AddCert]
    simp only [List.mem_cons]
    tauto

theorem mem_intermediates (leaf : x509.Certificate) (others : List x509.Certificate)
    (c : x509.Certificate) :
    c ∈ (checkSSLHandler.intermediates (leaf :: others)).certs ↔ c ∈ others := by
  simp only [checkSSLHandler.intermediates, checkSSLHandler.intermediatesLoop]
  rw [if_neg (by decide), mem_intermediatesLoop others 1 (by decide)]
  simp [x509.NewCertPool]

theorem intermediatesLoop_eq_foldl (certs : List x509.Certificate) (i : Nat) (hi : 0 < i)
    (pool : x509.CertPool) :
    checkSSLHandler.intermediatesLoop i certs pool = certs.foldl x509.CertPool.AddCert pool := by
  induction certs generalizing i pool with
  | nil => rfl
  | cons cert rest ih =>
    simp only [checkSSLHandler.intermediatesLoop, if_pos hi, List.foldl_cons]
    exact ih (i + 1) (Nat.succ_pos i) _

theorem intermediates_eq_foldl (leaf : x509.Certificate) (others : List x509.Certificate) :
    checkSSLHandler.intermediates (leaf :: others) =
      others.foldl x509.CertPool.AddCert x509.NewCertPool := by
  simp only [checkSSLHandler.intermediates, checkSSLHandler.intermediatesLoop]
  rw [if_neg (by decide), intermediatesLoop_eq_foldl others 1 (by decide)]

theorem payload_certificates (L : Lib) (query : Values) (payload : Response)
    (h : Event.Encode payload ∈ checkSSLHandler L query) :
    ∃ conn, checkSSLHandler.dialed L query = .ok conn ∧
      payload.Certificates = checkSSLHandler.certInfos conn.PeerCertificates := by
  by_cases hq : query.Get (ascii "ip") = [] ∨ query.Get (ascii "url") = []
  · rw [checkSSLHandler_missing L query hq] at h
    simp at h
  · cases hd : checkSSLHandler.dialed L query with
    | error err =>
      rw [checkSSLHandler_dial_error L query err hq hd] at h
      simp [checkSSLHandler.dialEvent] at h
    | ok conn =>
      cases hc : conn.PeerCertificates with
      | nil =>
        rw [checkSSLHandler_no_certs L query conn hq hd hc] at h
        simp [checkSSLHandler.dialEvent] at h
      | cons leaf others =>
        rw [checkSSLHandler_success L query conn leaf others hq hd hc] at h
        simp [checkSSLHandler.dialEvent] at h
        refine ⟨conn, rfl, ?_⟩
        rw [h, hc]

theorem failed_ne_valid (e : GoString) :
    ascii "Certificate chain verification failed: " ++ e ≠
      ascii "Certificate chain is valid." := by
  intro h
  have h1 := congrArg (List.take 19) h
  rw [List.take_append_of_le_length (by decide)] at h1
  revert h1
  decide

/-! ## Claims about the handler -/

/-- C3: hostname normalisation follows a strict three-way priority for every raw input
`s`: the host of `s` parsed as a URL when that parse succeeds with a non-empty host;
otherwise the host of `"https://" + s` parsed as a URL when that parse succeeds with a
non-empty host; otherwise `s` itself, unchanged.  The result is a plain string: there is no
error outcome. -/
theorem hostname_three_way_priority (Parse : GoString → Except String url.URL)
    (s : GoString) :
    (∀ u, Parse s = .ok u → u.Host ≠ [] → checkSSLHandler.hostname Parse s = u.Host) ∧
    ((∀ u, Parse s = .ok u → u.Host = []) →
      ∀ u, Parse (ascii "https://" ++ s) = .ok u → u.Host ≠ [] →
        checkSSLHandler.hostname Parse s = u.Host) ∧
    ((∀ u, Parse s = .ok u → u.Host = []) →
      (∀ u, Parse (ascii "https://" ++ s) = .ok u → u.Host = []) →
        checkSSLHandler.hostname Parse s = s) := by
  refine ⟨?_, ?_, ?_⟩
  · intro u hu hne
    simp only [checkSSLHandler.hostname, hu, if_pos hne]
  · intro h1 u hu hne
    simp only [checkSSLHandler.hostname, hu, if_pos hne]
    cases hp : Parse s with
    | error e => rfl
    | ok v => simp only [if_neg (not_not.mpr (h1 v hp))]
  · intro h1 h2
    have retry : (match Parse (ascii "https://" ++ s) with
        | .ok u => if u.Host ≠ [] then u.Host else s
        | .error _ => s) = s := by
      cases hq : Parse (ascii "https://" ++ s) with
      | error e => rfl
      | ok w => simp only [if_neg (not_not.mpr (h2 w hq))]
    simp only [checkSSLHandler.hostname, retry]
    cases hp : Parse s with
    | error e => rfl
    | ok v => simp only [if_neg (not_not.mpr (h1 v hp))]

/-- Witness for C3: the three branches at `https://example.com/x`, `example.com/x` and
`/x`, with Go's `url.Parse`. -/
theorem hostname_three_way_priority_witness :
    checkSSLHandler.hostname url.Parse (ascii "https://example.com/x") = ascii "example.com" ∧
    checkSSLHandler.hostname url.Parse (ascii "example.com/x") = ascii "example.com" ∧
    checkSSLHandler.hostname url.Parse (ascii "/x") = ascii "/x" := by
  refine ⟨?_, ?_, ?_⟩
  · exact (hostname_three_way_priority url.Parse (ascii "https://example.com/x")).1
      { Scheme := ascii "https", Host := ascii "example.com", Path := ascii "/x" }
      rfl (by decide)
  · refine (hostname_three_way_priority url.Parse (ascii "example.com/x")).2.1 ?_
      { Scheme := ascii "https", Host := ascii "example.com", Path := ascii "/x" }
      rfl (by decide)
    intro u hu
    have hp : url.Parse (ascii "example.com/x") = .ok { Path := ascii "example.com/x" } := rfl
    rw [hp] at hu
    cases hu
    rfl
  · refine (hostname_three_way_priority url.Parse (ascii "/x")).2.2 ?_ ?_
    · intro u hu
      have hp : url.Parse (ascii "/x") = .ok { Path := ascii "/x" } := rfl
      rw [hp] at hu
      cases hu
      rfl
    · intro u hu
      have hp : url.Parse (ascii "https://" ++ ascii "/x") =
          .ok { Scheme := ascii "https", Path := ascii "/x" } := rfl
      rw [hp] at hu
      cases hu
      rfl

/-- C4: for every peer certificate chain of length at least one (a leaf and the others),
the summary at index 0 carries the leaf's DNS names and the summary at every index `i`
with `1 ≤ i < n` has no DNS names. -/
theorem certInfos_dnsNames_leaf_only (leaf : x509.Certificate)
    (others : List x509.Certificate) :
    ((checkSSLHandler.certInfos (leaf :: others))[0]?).map CertInfo.DNSNames
        = some leaf.DNSNames ∧
    ∀ i, 1 ≤ i → i < (leaf :: others).length →
      ((checkSSLHandler.certInfos (leaf :: others))[i]?).map CertInfo.DNSNames = some [] := by
  refine ⟨?_, ?_⟩
  · rw [certInfos_getElem?]
    simp [checkSSLHandler.info]
  · intro i h1 hlt
    rw [certInfos_getElem?, List.getElem?_eq_getElem hlt]
    have hi : i ≠ 0 := by omega
    simp [checkSSLHandler.info, hi]

/-- C5: in a success response the chain-validation message takes one of two forms, decided
by the result of verifying the leaf `certs[0]` alone: it is `Certificate chain is valid.`
if and only if the verification returns no error, and otherwise it is
`Certificate chain verification failed: ` followed by the error's text. -/
theorem chainValidation_two_forms (L : Lib) (query : Values) (payload : Response)
    (h : Event.Encode payload ∈ checkSSLHandler L query) :
    ∃ conn leaf others,
      checkSSLHandler.dialed L query = .ok conn ∧
      conn.PeerCertificates = leaf :: others ∧
      (payload.ChainValidation = ascii "Certificate chain is valid." ↔
        L.Verify leaf (checkSSLHandler.validationOpts L query (leaf :: others)) = none) ∧
      (∀ e, L.Verify leaf (checkSSLHandler.validationOpts L query (leaf :: others)) = some e →
        payload.ChainValidation = ascii "Certificate chain verification failed: " ++ e) := by
  by_cases hq : query.Get (ascii "ip") = [] ∨ query.Get (ascii "url") = []
  · rw [checkSSLHandler_missing L query hq] at h
    simp at h
  · cases hd : checkSSLHandler.dialed L query with
    | error err =>
      rw [checkSSLHandler_dial_error L query err hq hd] at h
      simp [checkSSLHandler.dialEvent] at h
    | ok conn =>
      cases hc : conn.PeerCertificates with
      | nil =>
        rw [checkSSLHandler_no_certs L query conn hq hd hc] at h
        simp [checkSSLHandler.dialEvent] at h
      | cons leaf others =>
        rw [checkSSLHandler_success L query conn leaf others hq hd hc] at h
        simp [checkSSLHandler.dialEvent] at h
        refine ⟨conn, leaf, others, rfl, hc, ?_, ?_⟩
        · rw [h]
          cases hv : L.Verify leaf (checkSSLHandler.validationOpts L query (leaf :: others)) with
          | none => simp [checkSSLHandler.validationMessage]
          | some e =>
            simp only [checkSSLHandler.validationMessage]
            constructor
            · intro hbad
              exact absurd hbad (failed_ne_valid e)
            · intro hbad
              cases hbad
        · intro e he
          rw [h, he]
          rfl

/-- C6: when the `ip` or the `url` query parameter is missing or empty, the handler answers
400 with the fixed body and does nothing else, so no TLS dial is made; when both are
non-empty it answers no 400. -/
theorem missing_parameter_gives_400 (L : Lib) (query : Values) :
    ((query.Get (ascii "ip") = [] ∨ query.Get (ascii "url") = []) →
      checkSSLHandler L query =
        [.Error (ascii "\x7b\"error\": \"Query parameters 'ip' and 'url' are required.\"\x7d")
          400] ∧
      ∀ dialer network address config,
        Event.DialWithDialer dialer network address config ∉ checkSSLHandler L query) ∧
    ((query.Get (ascii "ip") ≠ [] ∧ query.Get (ascii "url") ≠ []) →
      ∀ body, Event.Error body 400 ∉ checkSSLHandler L query) := by
  refine ⟨?_, ?_⟩
  · intro h
    rw [checkSSLHandler_missing L query h]
    refine ⟨rfl, ?_⟩
    intro dialer network address config hmem
    simp at hmem
  · rintro ⟨hip, hurl⟩ body hmem
    have hq : ¬ (query.Get (ascii "ip") = [] ∨ query.Get (ascii "url") = []) := by
      rintro (h | h)
      · exact hip h
      · exact hurl h
    cases hd : checkSSLHandler.dialed L query with
    | error err =>
      rw [checkSSLHandler_dial_error L query err hq hd] at hmem
      simp [checkSSLHandler.dialEvent] at hmem
    | ok conn =>
      cases hc : conn.PeerCertificates with
      | nil =>
        rw [checkSSLHandler_no_certs L query conn hq hd hc] at hmem
        simp [checkSSLHandler.dialEvent] at hmem
      | cons leaf others =>
        rw [checkSSLHandler_success L query conn leaf others hq hd hc] at hmem
        simp [checkSSLHandler.dialEvent] at hmem

/-- C7: with both parameters present the outcome is classified by the connection result: a
dial or handshake error gives 500 with `Failed to connect via TLS: ` and the error text; a
handshake with an empty peer-certificate list gives 500 with the fixed no-certificates
body; a non-empty chain gives the success response; and a response payload (summaries and
validation message) is emitted only for a non-empty chain. -/
theorem outcome_classified_by_connection (L : Lib) (query : Values)
    (h : query.Get (ascii "ip") ≠ [] ∧ query.Get (ascii "url") ≠ []) :
    (∀ err, checkSSLHandler.dialed L query = .error err →
      checkSSLHandler L query =
        [checkSSLHandler.dialEvent L query,
         .Error (ascii "\x7b\"error\": \"Failed to connect via TLS: " ++ err ++ ascii "\"\x7d")
           500]) ∧
    (∀ conn, checkSSLHandler.dialed L query = .ok conn → conn.PeerCertificates = [] →
      checkSSLHandler L query =
        [checkSSLHandler.dialEvent L query,
         .Error (ascii "\x7b\"error\": \"Server did not provide any certificates.\"\x7d") 500,
         .Close]) ∧
    (∀ conn, checkSSLHandler.dialed L query = .ok conn → conn.PeerCertificates ≠ [] →
      ∃ leaf opts payload,
        checkSSLHandler L query =
          [checkSSLHandler.dialEvent L query, .Verify leaf opts,
           .HeaderSet (ascii "Content-Type") (ascii "application/json"),
           .Encode payload, .Close]) ∧
    ((∃ payload, Event.Encode payload ∈ checkSSLHandler L query) ↔
      ∃ conn, checkSSLHandler.dialed L query = .ok conn ∧ conn.PeerCertificates ≠ []) := by
  have hq : ¬ (query.Get (ascii "ip") = [] ∨ query.Get (ascii "url") = []) := by
    rintro (h1 | h1)
    · exact h.1 h1
    · exact h.2 h1
  refine ⟨?_, ?_, ?_, ?_⟩
  · intro err hd
    exact checkSSLHandler_dial_error L query err hq hd
  · intro conn hd hc
    exact checkSSLHandler_no_certs L query conn hq hd hc
  · intro conn hd hc
    cases hcs : conn.PeerCertificates with
    | nil => exact absurd hcs hc
    | cons leaf others =>
      exact ⟨leaf, _, _, checkSSLHandler_success L query conn leaf others hq hd hcs⟩
  · constructor
    · rintro ⟨payload, hmem⟩
      cases hd : checkSSLHandler.dialed L query with
      | error err =>
        rw [checkSSLHandler_dial_error L query err hq hd] at hmem
        simp [checkSSLHandler.dialEvent] at hmem
      | ok conn =>
        cases hc : conn.PeerCertificates with
        | nil =>
          rw [checkSSLHandler_no_certs L query conn hq hd hc] at hmem
          simp [checkSSLHandler.dialEvent] at hmem
        | cons leaf others =>
          refine ⟨conn, rfl, ?_⟩
          rw [hc]
          exact List.cons_ne_nil leaf others
    · rintro ⟨conn, hd, hc⟩
      cases hcs : conn.PeerCertificates with
      | nil => exact absurd hcs hc
      | cons leaf others =>
        rw [checkSSLHandler_success L query conn leaf others hq hd hcs]
        exact ⟨_, List.mem_cons_of_mem _ (List.mem_cons_of_mem _ (List.mem_cons_of_mem _
          (List.mem_cons_self _ _)))⟩

/-- C8: for every peer certificate chain of length at least one, the intermediate pool
passed to verification holds exactly the certificates at indices `1..n-1` of the chain: it
is the new pool with the certificates after the leaf added in order and nothing else (no
`AddCert` is made for index 0), so a certificate is in the pool if and only if it stands at
an index `1 ≤ i < n`, and for a chain of length one the pool is empty. -/
theorem intermediates_exactly_non_leaf (L : Lib) (query : Values) (leaf : x509.Certificate)
    (others : List x509.Certificate) :
    (checkSSLHandler.validationOpts L query (leaf :: others)).Intermediates =
      others.foldl x509.CertPool.AddCert x509.NewCertPool ∧
    (∀ c, c ∈ (checkSSLHandler.validationOpts L query (leaf :: others)).Intermediates.certs ↔
      ∃ i, 1 ≤ i ∧ i < (leaf :: others).length ∧ (leaf :: others)[i]? = some c) ∧
    (checkSSLHandler.validationOpts L query [leaf]).Intermediates.certs = [] := by
  refine ⟨intermediates_eq_foldl leaf others, ?_, rfl⟩
  intro c
  simp only [checkSSLHandler.validationOpts]
  rw [mem_intermediates, List.mem_iff_getElem?]
  constructor
  · rintro ⟨k, hk⟩
    refine ⟨k + 1, by omega, ?_, ?_⟩
    · have hlt : k < others.length := by
        rcases List.getElem?_eq_some_iff.mp hk with ⟨hlt, _⟩
        exact hlt
      simp only [List.length_cons]
      omega
    · simpa using hk
  · rintro ⟨i, h1, _, hi⟩
    obtain ⟨k, rfl⟩ : ∃ k, i = k + 1 := ⟨i - 1, by omega⟩
    exact ⟨k, by simpa using hi⟩

/-- C9: the summarisation preserves the chain: for a chain of length `n` the list of
summaries has length `n`, and its `i`-th entry is the projection (subject, issuer, validity
window in UTC, CA flag, signature algorithm) of the `i`-th presented certificate, for every
`i < n`; the projection is a total function; and the certificates of every response the
handler encodes are the summaries of the chain the peer presented. -/
theorem certInfos_preserves_chain (certs : List x509.Certificate) :
    (checkSSLHandler.certInfos certs).length = certs.length ∧
    (∀ (i : Nat) (cert : x509.Certificate), certs[i]? = some cert →
      ∃ info : CertInfo, (checkSSLHandler.certInfos certs)[i]? = some info ∧
        info.Subject = cert.Subject.String ∧
        info.Issuer = cert.Issuer.String ∧
        info.NotBefore = cert.NotBefore.UTC ∧
        info.NotAfter = cert.NotAfter.UTC ∧
        info.IsCA = cert.IsCA ∧
        info.SignatureAlgo = cert.SignatureAlgorithm.String) ∧
    (∀ (L : Lib) (query : Values) (payload : Response),
      Event.Encode payload ∈ checkSSLHandler L query →
        ∃ conn, checkSSLHandler.dialed L query = .ok conn ∧
          payload.Certificates = checkSSLHandler.certInfos conn.PeerCertificates) := by
  refine ⟨?_, ?_, payload_certificates⟩
  · simp [certInfos_eq]
  · intro i cert hi
    refine ⟨checkSSLHandler.info i cert, ?_, ?_⟩
    · rw [certInfos_getElem?, hi]
      rfl
    · by_cases h0 : i = 0 <;> simp [checkSSLHandler.info, h0]

/-! ## Package `strings`: searching for a byte that is absent -/

theorem Cut_of_not_mem (s : GoString) (c : Nat) (h : c ∉ s) :
    strings.Cut s c = (s, [], false) := by
  have h1 : s.takeWhile (fun b => b != c) = s := by
    rw [List.takeWhile_eq_self_iff]
    intro x hx
    simp only [bne_iff_ne, ne_eq]
    rintro rfl
    exact h hx
  have h2 : s.dropWhile (fun b => b != c) = [] := by
    rw [List.dropWhile_eq_nil_iff]
    intro x hx
    simp only [bne_iff_ne, ne_eq]
    rintro rfl
    exact h hx
  simp [strings.Cut, h1, h2, h]

theorem Cut_fst_subset (s : GoString) (c x : Nat) (hx : x ∈ (strings.Cut s c).1) : x ∈ s :=
  (List.takeWhile_sublist _).subset hx

theorem Index_singleton_none (s : GoString) (c : Nat) (h : c ∉ s) :
    strings.Index s [c] = none := by
  induction s with
  | nil => simp [strings.Index]
  | cons b t ih =>
    have hb : c ≠ b := fun e => h (e ▸ List.mem_cons_self _ _)
    have ht : c ∉ t := fun e => h (List.mem_cons_of_mem _ e)
    simp [strings.Index, ih ht, hb]

theorem LastIndex_none (s : GoString) (c : Nat) (h : c ∉ s) :
    strings.LastIndex s c = none := by
  induction s with
  | nil => simp [strings.LastIndex]
  | cons b t ih =>
    have hb : b ≠ c := fun e => h (e ▸ List.mem_cons_self _ _)
    have ht : c ∉ t := fun e => h (List.mem_cons_of_mem _ e)
    simp [strings.LastIndex, ih ht, hb]

theorem LastIndex_append (h p : GoString) (c : Nat) (hp : c ∉ p) :
    strings.LastIndex (h ++ c :: p) c = some h.length := by
  induction h with
  | nil => simp [strings.LastIndex, LastIndex_none p c hp]
  | cons b t ih => simp [strings.LastIndex, ih]

/-! ## Package `net/url`: a URL with a host has a slash -/

theorem getSchemeLoop_rest_subset (raw : GoString) (i : Nat) (s sch r : GoString)
    (hs : ∀ x ∈ s, x ∈ raw) (h : url.getSchemeLoop raw i s = .ok (sch, r)) :
    ∀ x ∈ r, x ∈ raw := by
  induction s generalizing i with
  | nil =>
    simp only [url.getSchemeLoop, Except.ok.injEq, Prod.mk.injEq] at h
    rw [← h.2]
    exact fun x hx => hx
  | cons c t ih =>
    have ht : ∀ x ∈ t, x ∈ raw := fun x hx => hs x (List.mem_cons_of_mem _ hx)
    simp only [url.getSchemeLoop] at h
    split at h
    · exact ih (i + 1) ht h
    · split at h
      · split at h
        · simp only [Except.ok.injEq, Prod.mk.injEq] at h
          rw [← h.2]
          exact fun x hx => hx
        · exact ih (i + 1) ht h
      · split at h
        · split at h
          · cases h
          · simp only [Except.ok.injEq, Prod.mk.injEq] at h
            rw [← h.2]
            exact ht
        · simp only [Except.ok.injEq, Prod.mk.injEq] at h
          rw [← h.2]
          exact fun x hx => hx

theorem splitQuery_fst_subset (rest : GoString) (x : Nat)
    (hx : x ∈ (url.splitQuery rest).1) : x ∈ rest := by
  unfold url.splitQuery at hx
  by_cases hq : (strings.EndsWith rest [63] && strings.Count rest 63 == 1) = true
  · rw [if_pos hq] at hx
    exact (List.dropLast_sublist rest).subset hx
  · rw [if_neg hq] at hx
    exact Cut_fst_subset rest 63 x hx

theorem parseAfterScheme_host (scheme rest : GoString) (forceQuery : Bool)
    (rawQuery : GoString) (u : url.URL)
    (h : url.parseAfterScheme scheme rest forceQuery rawQuery = .ok u) :
    u.Host = [] ∨
      (strings.StartsWith rest [47, 47] = true ∧
        ∃ user, url.parseAuthority (url.splitAuthority (rest.drop 2)).1 = .ok (user, u.Host)) := by
  unfold url.parseAfterScheme at h
  by_cases h1 : (!strings.StartsWith rest [47] && scheme != []) = true
  · rw [if_pos h1] at h
    cases h
    exact Or.inl rfl
  · rw [if_neg h1] at h
    by_cases h2 : (!strings.StartsWith rest [47] &&
        strings.Contains (strings.Cut rest 47).1 58) = true
    · rw [if_pos h2] at h
      cases h
    · rw [if_neg h2] at h
      by_cases h3 : ((scheme != [] || !strings.StartsWith rest [47, 47, 47]) &&
          strings.StartsWith rest [47, 47]) = true
      · rw [if_pos h3] at h
        right
        refine ⟨(Bool.and_eq_true _ _ ▸ h3).2, ?_⟩
        cases ha : url.parseAuthority (url.splitAuthority (rest.drop 2)).1 with
        | error e =>
          rw [ha] at h
          cases h
        | ok r =>
          obtain ⟨user, host⟩ := r
          rw [ha] at h
          cases hp : url.unescape (url.splitAuthority (rest.drop 2)).2 .encodePath with
          | error e =>
            rw [hp] at h
            cases h
          | ok path =>
            rw [hp] at h
            cases h
            exact ⟨user, rfl⟩
      · rw [if_neg h3] at h
        cases hp : url.unescape rest .encodePath with
        | error e =>
          rw [hp] at h
          cases h
        | ok path =>
          rw [hp] at h
          cases h
          exact Or.inl rfl

theorem parse_host (raw : GoString) (u : url.URL) (h : url.parse raw = .ok u) :
    u.Host = [] ∨
      ∃ rest user, (∀ x ∈ rest, x ∈ raw) ∧ strings.StartsWith rest [47, 47] = true ∧
        url.parseAuthority (url.splitAuthority (rest.drop 2)).1 = .ok (user, u.Host) := by
  unfold url.parse at h
  by_cases h1 : url.stringContainsCTLByte raw = true
  · rw [if_pos h1] at h
    cases h
  · rw [if_neg h1] at h
    by_cases h2 : raw = [42]
    · rw [if_pos h2] at h
      cases h
      exact Or.inl rfl
    · rw [if_neg h2] at h
      cases hg : url.getScheme raw with
      | error e =>
        rw [hg] at h
        cases h
      | ok r =>
        obtain ⟨scheme, rest⟩ := r
        rw [hg] at h
        rcases parseAfterScheme_host _ _ _ _ u h with h0 | ⟨hs, user, ha⟩
        · exact Or.inl h0
        · refine Or.inr ⟨(url.splitQuery rest).1, user, ?_, hs, ha⟩
          intro x hx
          exact getSchemeLoop_rest_subset raw 0 raw scheme rest (fun y hy => hy) hg x
            (splitQuery_fst_subset rest x hx)

theorem Parse_host (raw : GoString) (u : url.URL) (h : url.Parse raw = .ok u) :
    ∃ v, url.parse (strings.Cut raw 35).1 = .ok v ∧ v.Host = u.Host := by
  unfold url.Parse at h
  cases hp : url.parse (strings.Cut raw 35).1 with
  | error e =>
    rw [hp] at h
    cases h
  | ok v =>
    rw [hp] at h
    dsimp only at h
    by_cases hf : (strings.Cut raw 35).2.1 = []
    · rw [if_pos hf] at h
      cases h
      exact ⟨_, rfl, rfl⟩
    · rw [if_neg hf] at h
      cases hu : url.unescape (strings.Cut raw 35).2.1 .encodeFragment with
      | error e =>
        rw [hu] at h
        cases h
      | ok frag =>
        rw [hu] at h
        cases h
        exact ⟨_, rfl, rfl⟩

theorem Parse_host_nil_of_no_slash (raw : GoString) (u : url.URL) (hraw : 47 ∉ raw)
    (h : url.Parse raw = .ok u) : u.Host = [] := by
  obtain ⟨v, hv, hvu⟩ := Parse_host raw u h
  rw [← hvu]
  rcases parse_host _ v hv with h0 | ⟨rest, user, hsub, hs, _⟩
  · exact h0
  · exfalso
    apply hraw
    apply Cut_fst_subset raw 35
    apply hsub
    exact (List.isPrefixOf_iff_prefix.mp hs).subset (List.mem_cons_self _ _)

/-! ## Package `net/url`: the bytes of a parsed host -/

theorem shouldEscape_host_delimiter (x : Nat) (mode : url.encoding)
    (hm : mode = .encodeHost ∨ mode = .encodeZone)
    (h : url.shouldEscape x mode = false) : x ≠ 47 ∧ x ≠ 63 ∧ x ≠ 35 := by
  refine ⟨?_, ?_, ?_⟩ <;>
  · rintro rfl
    rcases hm with rfl | rfl <;> revert h <;> decide

theorem unescapeDecode_no_delimiter (mode : url.encoding)
    (hm : mode = .encodeHost ∨ mode = .encodeZone) (n : Nat) :
    ∀ s : GoString, s.length ≤ n → url.unescapeCheck mode s = .ok () →
      ∀ x ∈ url.unescapeDecode mode s, x ≠ 47 ∧ x ≠ 63 ∧ x ≠ 35 := by
  induction n with
  | zero =>
    intro s hs _ x hx
    have : s = [] := List.length_eq_zero.mp (Nat.le_zero.mp hs)
    subst this
    simp [url.unescapeDecode] at hx
  | succ n ih =>
    intro s hs hc x hx
    match s, hs, hc, hx with
    | [], _, _, hx => simp [url.unescapeDecode] at hx
    | c :: t, hs, hc, hx =>
      by_cases h37 : c = 37
      · subst h37
        match t, hs, hc, hx with
        | [], _, hc, _ => simp [url.unescapeCheck] at hc
        | [a], _, hc, _ => simp [url.unescapeCheck] at hc
        | a :: b :: t2, hs, hc, hx =>
          simp only [url.unescapeCheck, if_true] at hc
          simp only [url.unescapeDecode, if_true, List.mem_cons] at hx
          by_cases e1 : (!url.ishex a || !url.ishex b) = true
          · rw [if_pos e1] at hc
            cases hc
          · rw [if_neg e1] at hc
            by_cases e2 : mode = .encodeHost ∧ url.unhex a < 8 ∧ [37, a, b] ≠ [37, 50, 53]
            · rw [if_pos e2] at hc
              cases hc
            · rw [if_neg e2] at hc
              by_cases e3 : mode = .encodeZone ∧ [37, a, b] ≠ [37, 50, 53] ∧
                  url.unhex a * 16 + url.unhex b ≠ 32 ∧
                  url.shouldEscape (url.unhex a * 16 + url.unhex b) .encodeHost = true
              · rw [if_pos e3] at hc
                cases hc
              · rw [if_neg e3] at hc
                rcases hx with hx | hx
                · subst hx
                  by_cases h25 : [37, a, b] = [37, 50, 53]
                  · simp only [List.cons.injEq, true_and, and_true] at h25
                    obtain ⟨rfl, rfl⟩ := h25
                    decide
                  · rcases hm with rfl | rfl
                    · have h8 : ¬ url.unhex a < 8 := fun h8 => e2 ⟨rfl, h8, h25⟩
                      omega
                    · by_cases h32 : url.unhex a * 16 + url.unhex b = 32
                      · omega
                      · have hse : url.shouldEscape (url.unhex a * 16 + url.unhex b)
                            .encodeHost = false := by
                          cases hv : url.shouldEscape (url.unhex a * 16 + url.unhex b)
                            .encodeHost with
                          | false => rfl
                          | true => exact absurd ⟨rfl, h25, h32, hv⟩ e3
                        exact shouldEscape_host_delimiter _ _ (Or.inl rfl) hse
                · refine ih t2 ?_ hc x hx
                  simp only [List.length_cons] at hs
                  omega
      · unfold url.unescapeCheck at hc
        unfold url.unescapeDecode at hx
        simp only [if_neg h37] at hc hx
        by_cases e1 : (mode = .encodeHost ∨ mode = .encodeZone) ∧ c ≠ 43 ∧ c < 128 ∧
            url.shouldEscape c mode = true
        · rw [if_pos e1] at hc
          cases hc
        · rw [if_neg e1] at hc
          have hq : ¬ (c = 43 ∧ mode = .encodeQueryComponent) := by
            rintro ⟨_, hq⟩
            rcases hm with rfl | rfl <;> cases hq
          rw [if_neg hq] at hx
          rcases List.mem_cons.mp hx with hx | hx
          · subst hx
            by_cases h43 : x = 43
            · subst h43
              decide
            · by_cases h128 : x < 128
              · have hse : url.shouldEscape x mode = false := by
                  cases hv : url.shouldEscape x mode with
                  | false => rfl
                  | true => exact absurd ⟨hm, h43, h128, hv⟩ e1
                exact shouldEscape_host_delimiter x mode hm hse
              · omega
          · refine ih t ?_ hc x hx
            simp only [List.length_cons] at hs
            omega

theorem unescape_no_delimiter (mode : url.encoding)
    (hm : mode = .encodeHost ∨ mode = .encodeZone) (s r : GoString)
    (h : url.unescape s mode = .ok r) : ∀ x ∈ r, x ≠ 47 ∧ x ≠ 63 ∧ x ≠ 35 := by
  unfold url.unescape at h
  cases hc : url.unescapeCheck mode s with
  | error e =>
    rw [hc] at h
    cases h
  | ok v =>
    rw [hc] at h
    cases h
    exact unescapeDecode_no_delimiter mode hm s.length s (Nat.le_refl _) hc

theorem parseHost_no_delimiter (host r : GoString) (h : url.parseHost host = .ok r) :
    ∀ x ∈ r, x ≠ 47 ∧ x ≠ 63 ∧ x ≠ 35 := by
  unfold url.parseHost at h
  by_cases hb : strings.StartsWith host [91] = true
  · rw [if_pos hb] at h
    cases hl : strings.LastIndex host 93 with
    | none =>
      rw [hl] at h
      cases h
    | some i =>
      rw [hl] at h
      dsimp only at h
      by_cases hp : (!url.validOptionalPort (host.drop (i + 1))) = true
      · rw [if_pos hp] at h
        cases h
      · rw [if_neg hp] at h
        cases hz : strings.Index (host.take i) [37, 50, 53] with
        | none =>
          rw [hz] at h
          exact unescape_no_delimiter _ (Or.inl rfl) _ _ h
        | some zone =>
          rw [hz] at h
          dsimp only at h
          cases h1 : url.unescape (host.take zone) .encodeHost with
          | error e =>
            rw [h1] at h
            cases h
          | ok host1 =>
            rw [h1] at h
            dsimp only at h
            cases h2 : url.unescape ((host.take i).drop zone) .encodeZone with
            | error e =>
              rw [h2] at h
              cases h
            | ok host2 =>
              rw [h2] at h
              dsimp only at h
              cases h3 : url.unescape (host.drop i) .encodeHost with
              | error e =>
                rw [h3] at h
                cases h
              | ok host3 =>
                rw [h3] at h
                cases h
                intro x hx
                rcases List.mem_append.mp hx with hx | hx
                · rcases List.mem_append.mp hx with hx | hx
                  · exact unescape_no_delimiter _ (Or.inl rfl) _ _ h1 x hx
                  · exact unescape_no_delimiter _ (Or.inr rfl) _ _ h2 x hx
                · exact unescape_no_delimiter _ (Or.inl rfl) _ _ h3 x hx
  · rw [if_neg hb] at h
    cases hl : strings.LastIndex host 58 with
    | none =>
      rw [hl] at h
      exact unescape_no_delimiter _ (Or.inl rfl) _ _ h
    | some i =>
      rw [hl] at h
      dsimp only at h
      by_cases hp : (!url.validOptionalPort (host.drop i)) = true
      · rw [if_pos hp] at h
        cases h
      · rw [if_neg hp] at h
        exact unescape_no_delimiter _ (Or.inl rfl) _ _ h

theorem parseAuthority_host (authority : GoString) (user : Option url.Userinfo)
    (host : GoString) (h : url.parseAuthority authority = .ok (user, host)) :
    ∃ part, url.parseHost part = .ok host := by
  unfold url.parseAuthority at h
  dsimp only at h
  generalize hpart : (match strings.LastIndex authority 64 with
    | none => authority
    | some i => authority.drop (i + 1)) = part at h
  cases hh : url.parseHost part with
  | error e =>
    rw [hh] at h
    cases h
  | ok host0 =>
    rw [hh] at h
    dsimp only at h
    refine ⟨part, ?_⟩
    rw [hh]
    congr 1
    cases hi : strings.LastIndex authority 64 with
    | none =>
      rw [hi] at h
      cases h
      rfl
    | some i =>
      rw [hi] at h
      dsimp only at h
      by_cases hv : (!url.validUserinfo (authority.take i)) = true
      · rw [if_pos hv] at h
        cases h
      · rw [if_neg hv] at h
        by_cases hc : (!strings.Contains (authority.take i) 58) = true
        · rw [if_pos hc] at h
          cases hu : url.unescape (authority.take i) .encodeUserPassword with
          | error e =>
            rw [hu] at h
            cases h
          | ok w =>
            rw [hu] at h
            cases h
            rfl
        · rw [if_neg hc] at h
          cases hu : url.unescape (strings.Cut (authority.take i) 58).1 .encodeUserPassword with
          | error e =>
            rw [hu] at h
            cases h
          | ok w =>
            rw [hu] at h
            dsimp only at h
            cases hw : url.unescape (strings.Cut (authority.take i) 58).2.1
                .encodeUserPassword with
            | error e =>
              rw [hw] at h
              cases h
            | ok w2 =>
              rw [hw] at h
              cases h
              rfl

theorem Parse_host_no_delimiter (raw : GoString) (u : url.URL) (h : url.Parse raw = .ok u) :
    ∀ x ∈ u.Host, x ≠ 47 ∧ x ≠ 63 ∧ x ≠ 35 := by
  obtain ⟨v, hv, hvu⟩ := Parse_host raw u h
  rw [← hvu]
  rcases parse_host _ v hv with h0 | ⟨rest, user, _, _, ha⟩
  · rw [h0]
    intro x hx
    cases hx
  · obtain ⟨part, hp⟩ := parseAuthority_host _ user v.Host ha
    exact parseHost_no_delimiter part v.Host hp

/-! ## Package `net/url`: `https://` before a host and port -/

theorem shouldEscape_hostByte (c : Nat) (h : isHostByte c = true) :
    url.shouldEscape c .encodeHost = false := by
  unfold isHostByte at h
  unfold url.shouldEscape
  by_cases ha : (url.isAlpha c || url.isDigit c) = true
  · rw [if_pos ha]
  · rw [if_neg ha]
    have hc : c = 45 ∨ c = 46 := by
      simp only [Bool.or_eq_true, beq_iff_eq] at h ha
      tauto
    rcases hc with rfl | rfl <;> decide

theorem hostByte_plain (c : Nat) (h : isHostByte c = true) :
    c ≠ 37 ∧ c ≠ 47 ∧ c ≠ 63 ∧ c ≠ 35 ∧ c ≠ 64 ∧ c ≠ 91 ∧ c ≠ 127 ∧ ¬ c < 32 := by
  unfold isHostByte url.isAlpha url.isDigit at h
  simp only [Bool.or_eq_true, Bool.and_eq_true, decide_eq_true_eq, beq_iff_eq] at h
  omega

theorem digit_plain (c : Nat) (h : url.isDigit c = true) :
    c ≠ 37 ∧ c ≠ 47 ∧ c ≠ 63 ∧ c ≠ 35 ∧ c ≠ 64 ∧ c ≠ 58 ∧ c ≠ 127 ∧ ¬ c < 32 := by
  unfold url.isDigit at h
  simp only [Bool.and_eq_true, decide_eq_true_eq] at h
  omega

theorem unescapeCheck_plain (s : GoString)
    (hs : ∀ c ∈ s, c ≠ 37 ∧ url.shouldEscape c .encodeHost = false) :
    url.unescapeCheck .encodeHost s = .ok () := by
  induction s with
  | nil => rfl
  | cons c t ih =>
    have hc := hs c (List.mem_cons_self _ _)
    unfold url.unescapeCheck
    rw [if_neg hc.1, if_neg (by simp [hc.2])]
    exact ih (fun x hx => hs x (List.mem_cons_of_mem _ hx))

theorem unescapeDecode_plain (mode : url.encoding) (hm : mode ≠ .encodeQueryComponent)
    (s : GoString) (hs : 37 ∉ s) : url.unescapeDecode mode s = s := by
  induction s with
  | nil => rfl
  | cons c t ih =>
    have hc : c ≠ 37 := fun e => hs (e ▸ List.mem_cons_self _ _)
    unfold url.unescapeDecode
    rw [if_neg hc, if_neg (fun h => hm h.2), ih (fun e => hs (List.mem_cons_of_mem _ e))]

theorem parseHost_host_port (h p : GoString) (hh : h ≠ [])
    (hhost : ∀ c ∈ h, isHostByte c = true) (hport : ∀ c ∈ p, url.isDigit c = true) :
    url.parseHost (h ++ 58 :: p) = .ok (h ++ 58 :: p) := by
  have hplain : ∀ c ∈ h ++ 58 :: p, c ≠ 37 ∧ url.shouldEscape c .encodeHost = false := by
    intro c hc
    rcases List.mem_append.mp hc with hc | hc
    · exact ⟨(hostByte_plain c (hhost c hc)).1, shouldEscape_hostByte c (hhost c hc)⟩
    · rcases List.mem_cons.mp hc with rfl | hc
      · exact ⟨by decide, by decide⟩
      · refine ⟨(digit_plain c (hport c hc)).1, shouldEscape_hostByte c ?_⟩
        simp [isHostByte, hport c hc]
  have hun : url.unescape (h ++ 58 :: p) .encodeHost = .ok (h ++ 58 :: p) := by
    unfold url.unescape
    rw [unescapeCheck_plain _ hplain]
    dsimp only
    rw [unescapeDecode_plain _ (by decide) _ (fun hm => (hplain 37 hm).1 rfl)]
  have hbr : ¬ strings.StartsWith (h ++ 58 :: p) [91] = true := by
    match h, hh, hhost with
    | c :: t, _, hhost =>
      have hc := (hostByte_plain c (hhost c (List.mem_cons_self _ _))).2.2.2.2.2.1
      simp [strings.StartsWith, List.isPrefixOf, Ne.symm hc]
  have hlast : strings.LastIndex (h ++ 58 :: p) 58 = some h.length :=
    LastIndex_append h p 58 (fun hm => (digit_plain 58 (hport 58 hm)).2.2.2.2.2.1 rfl)
  have hvalid : url.validOptionalPort (58 :: p) = true := by
    simp only [url.validOptionalPort, beq_self_eq_true, Bool.true_and]
    exact List.all_eq_true.mpr hport
  unfold url.parseHost
  rw [if_neg hbr, hlast]
  dsimp only
  rw [List.drop_left, hvalid]
  exact hun

theorem splitQuery_of_no_query (rest : GoString) (h : 63 ∉ rest) :
    url.splitQuery rest = (rest, false, []) := by
  unfold url.splitQuery
  have hc : strings.Count rest 63 = 0 := List.count_eq_zero.mpr h
  rw [if_neg (by simp [hc]), Cut_of_not_mem rest 63 h]

theorem splitAuthority_of_no_slash (s : GoString) (h : 47 ∉ s) :
    url.splitAuthority s = (s, []) := by
  unfold url.splitAuthority
  rw [Index_singleton_none s 47 h]

theorem parseAuthority_of_no_at (a : GoString) (h : 64 ∉ a) :
    url.parseAuthority a =
      match url.parseHost a with
      | .error e => .error e
      | .ok host => .ok (none, host) := by
  unfold url.parseAuthority
  rw [LastIndex_none a 64 h]

theorem Parse_https (a : GoString) (hctl : ∀ c ∈ a, ¬ c < 32 ∧ c ≠ 127)
    (h35 : 35 ∉ a) (h63 : 63 ∉ a) (h47 : 47 ∉ a) (h64 : 64 ∉ a) :
    url.Parse (ascii "https://" ++ a) =
      match url.parseHost a with
      | .error e => .error e
      | .ok host => .ok { Scheme := ascii "https", Host := host } := by
  have hraw : ascii "https://" ++ a = 104 :: 116 :: 116 :: 112 :: 115 :: 58 :: 47 :: 47 :: a :=
    rfl
  have hcut : strings.Cut (ascii "https://" ++ a) 35 = (ascii "https://" ++ a, [], false) := by
    apply Cut_of_not_mem
    rw [hraw]
    simp only [List.mem_cons, not_or]
    exact ⟨by decide, by decide, by decide, by decide, by decide, by decide, by decide,
      by decide, h35⟩
  have hnoctl : ¬ url.stringContainsCTLByte (ascii "https://" ++ a) = true := by
    rw [hraw]
    simp only [url.stringContainsCTLByte, List.any_cons, Bool.or_eq_true, List.any_eq_true,
      decide_eq_true_eq, beq_iff_eq, not_or, not_exists, not_and]
    refine ⟨by decide, by decide, by decide, by decide, by decide, by decide, by decide,
      by decide, ?_⟩
    intro x hx
    exact ⟨(hctl x hx).1, (hctl x hx).2⟩
  have hstar : ¬ ascii "https://" ++ a = [42] := by
    rw [hraw]
    simp
  have hscheme : url.getScheme (ascii "https://" ++ a) = .ok (ascii "https", 47 :: 47 :: a) :=
    rfl
  have hq : url.splitQuery (47 :: 47 :: a) = (47 :: 47 :: a, false, []) := by
    apply splitQuery_of_no_query
    simp only [List.mem_cons, not_or]
    exact ⟨by decide, by decide, h63⟩
  have hafter : url.parseAfterScheme (ascii "https") (47 :: 47 :: a) false [] =
      match url.parseHost a with
      | .error e => .error e
      | .ok host => .ok { Scheme := ascii "https", Host := host } := by
    have hs1 : strings.StartsWith (47 :: 47 :: a) [47] = true := by
      simp [strings.StartsWith]
    have hs2 : strings.StartsWith (47 :: 47 :: a) [47, 47] = true := by
      simp [strings.StartsWith]
    have hsch : (ascii "https" != []) = true := by decide
    unfold url.parseAfterScheme
    rw [if_neg (by rw [hs1]; decide), if_neg (by rw [hs1]; simp),
      if_pos (by rw [hs2, hsch]; rfl)]
    simp only [List.drop_succ_cons, List.drop_zero]
    rw [splitAuthority_of_no_slash a h47, parseAuthority_of_no_at a h64]
    cases url.parseHost a with
    | error e => rfl
    | ok host => rfl
  unfold url.Parse
  rw [hcut]
  dsimp only
  unfold url.parse
  rw [if_neg hnoctl, if_neg hstar, hscheme]
  dsimp only
  rw [hq]
  dsimp only
  have hlow : strings.ToLower (ascii "https") = ascii "https" := by decide
  rw [hlow, hafter]
  cases url.parseHost a with
  | error e => rfl
  | ok host => rfl

theorem Parse_https_host_port (h p : GoString) (hh : h ≠ [])
    (hhost : ∀ c ∈ h, isHostByte c = true) (hport : ∀ c ∈ p, url.isDigit c = true) :
    url.Parse (ascii "https://" ++ (h ++ 58 :: p)) =
      .ok { Scheme := ascii "https", Host := h ++ 58 :: p } := by
  have hall : ∀ c ∈ h ++ 58 :: p,
      c ≠ 37 ∧ c ≠ 47 ∧ c ≠ 63 ∧ c ≠ 35 ∧ c ≠ 64 ∧ c ≠ 127 ∧ ¬ c < 32 := by
    intro c hc
    rcases List.mem_append.mp hc with hc | hc
    · have := hostByte_plain c (hhost c hc)
      exact ⟨this.1, this.2.1, this.2.2.1, this.2.2.2.1, this.2.2.2.2.1, this.2.2.2.2.2.2.1,
        this.2.2.2.2.2.2.2⟩
    · rcases List.mem_cons.mp hc with rfl | hc
      · decide
      · have := digit_plain c (hport c hc)
        exact ⟨this.1, this.2.1, this.2.2.1, this.2.2.2.1, this.2.2.2.2.1, this.2.2.2.2.2.2.1,
          this.2.2.2.2.2.2.2⟩
  rw [Parse_https (h ++ 58 :: p)
    (fun c hc => ⟨(hall c hc).2.2.2.2.2.2, (hall c hc).2.2.2.2.2.1⟩)
    (fun hm => (hall 35 hm).2.2.2.1 rfl) (fun hm => (hall 63 hm).2.2.1 rfl)
    (fun hm => (hall 47 hm).2.1 rfl) (fun hm => (hall 64 hm).2.2.2.2.1 rfl),
    parseHost_host_port h p hh hhost hport]

theorem hostname_host_port (h p : GoString) (hh : h ≠ [])
    (hhost : ∀ c ∈ h, isHostByte c = true) (hport : ∀ c ∈ p, url.isDigit c = true) :
    checkSSLHandler.hostname url.Parse (h ++ 58 :: p) = h ++ 58 :: p := by
  have h47 : 47 ∉ h ++ 58 :: p := by
    intro hm
    rcases List.mem_append.mp hm with hm | hm
    · exact (hostByte_plain 47 (hhost 47 hm)).2.1 rfl
    · rcases List.mem_cons.mp hm with hm | hm
      · cases hm
      · exact (digit_plain 47 (hport 47 hm)).2.1 rfl
  have hne : h ++ 58 :: p ≠ [] := by simp
  unfold checkSSLHandler.hostname
  rw [Parse_https_host_port h p hh hhost hport]
  dsimp only
  rw [if_pos hne]
  cases hp : url.Parse (h ++ 58 :: p) with
  | error e => rfl
  | ok u =>
    dsimp only
    rw [if_neg (not_not.mpr (Parse_host_nil_of_no_slash _ u h47 hp))]

/-! ## The hostname the handler uses -/

theorem handler_uses_hostname (L : Lib) (query : Values) :
    (∀ dialer network address config,
      Event.DialWithDialer dialer network address config ∈ checkSSLHandler L query →
        config.ServerName = checkSSLHandler.hostname L.Parse (query.Get (ascii "url"))) ∧
    (∀ leaf opts, Event.Verify leaf opts ∈ checkSSLHandler L query →
        opts.DNSName = checkSSLHandler.hostname L.Parse (query.Get (ascii "url"))) := by
  by_cases hq : query.Get (ascii "ip") = [] ∨ query.Get (ascii "url") = []
  · rw [checkSSLHandler_missing L query hq]
    simp
  · cases hd : checkSSLHandler.dialed L query with
    | error err =>
      rw [checkSSLHandler_dial_error L query err hq hd]
      simp only [checkSSLHandler.dialEvent]
      constructor
      · intro dialer network address config hmem
        simp at hmem
        rw [hmem.2.2.2]
      · intro leaf opts hmem
        simp at hmem
    | ok conn =>
      cases hc : conn.PeerCertificates with
      | nil =>
        rw [checkSSLHandler_no_certs L query conn hq hd hc]
        simp only [checkSSLHandler.dialEvent]
        constructor
        · intro dialer network address config hmem
          simp at hmem
          rw [hmem.2.2.2]
        · intro leaf opts hmem
          simp at hmem
      | cons leaf others =>
        rw [checkSSLHandler_success L query conn leaf others hq hd hc]
        simp only [checkSSLHandler.dialEvent]
        constructor
        · intro dialer network address config hmem
          simp at hmem
          rw [hmem.2.2.2]
        · intro leaf2 opts hmem
          simp at hmem
          rw [hmem.2]
          rfl

theorem handler_dials_first (L : Lib) (query : Values)
    (h : query.Get (ascii "ip") ≠ [] ∧ query.Get (ascii "url") ≠ []) :
    ∃ rest, checkSSLHandler L query = checkSSLHandler.dialEvent L query :: rest := by
  have hq : ¬ (query.Get (ascii "ip") = [] ∨ query.Get (ascii "url") = []) := by
    rintro (h1 | h1)
    · exact h.1 h1
    · exact h.2 h1
  cases hd : checkSSLHandler.dialed L query with
  | error err => exact ⟨_, checkSSLHandler_dial_error L query err hq hd⟩
  | ok conn =>
    cases hc : conn.PeerCertificates with
    | nil => exact ⟨_, checkSSLHandler_no_certs L query conn hq hd hc⟩
    | cons leaf others => exact ⟨_, checkSSLHandler_success L query conn leaf others hq hd hc⟩

theorem getSchemeLoop_of_no_colon (raw : GoString) (i : Nat) (s : GoString) (h : 58 ∉ s) :
    url.getSchemeLoop raw i s = .ok ([], raw) := by
  induction s generalizing i with
  | nil => rfl
  | cons c t ih =>
    have hc : c ≠ 58 := fun e => h (e ▸ List.mem_cons_self _ _)
    have ht : 58 ∉ t := fun e => h (List.mem_cons_of_mem _ e)
    unfold url.getSchemeLoop
    by_cases h1 : url.isAlpha c = true
    · rw [if_pos h1]
      exact ih (i + 1) ht
    · rw [if_neg h1]
      by_cases h2 : (url.isDigit c || c == 43 || c == 45 || c == 46) = true
      · rw [if_pos h2]
        by_cases h0 : i = 0
        · rw [if_pos h0]
        · rw [if_neg h0]
          exact ih (i + 1) ht
      · rw [if_neg h2, if_neg hc]

theorem hasScheme_of_no_colon (s : GoString) (h : 58 ∉ s) : hasScheme s = false := by
  unfold hasScheme url.getScheme
  rw [getSchemeLoop_of_no_colon s 0 s h]
  rfl

theorem hostname_ne_nil (Parse : GoString → Except String url.URL) (s : GoString)
    (hs : s ≠ []) : checkSSLHandler.hostname Parse s ≠ [] := by
  have retry : (match Parse (ascii "https://" ++ s) with
      | .ok u => if u.Host ≠ [] then u.Host else s
      | .error _ => s) ≠ [] := by
    cases Parse (ascii "https://" ++ s) with
    | error e => exact hs
    | ok w =>
      dsimp only
      by_cases hw : w.Host ≠ []
      · rw [if_pos hw]
        exact hw
      · rw [if_neg hw]
        exact hs
  unfold checkSSLHandler.hostname
  cases Parse s with
  | error e => exact retry
  | ok v =>
    dsimp only
    by_cases hv : v.Host ≠ []
    · rw [if_pos hv]
      exact hv
    · rw [if_neg hv]
      exact retry

/-! ## Claims about the hostname -/

/-- C1: the three input shapes of one logical host at `example.com`: the bare host, the
schemeless `host/path` and the `https://host/path` URL normalise to the bare host, but the
URL with a port, `https://example.com:8443/path`, normalises to `example.com:8443`: the
port is left in the result. -/
theorem hostname_of_url_with_port_keeps_port :
    checkSSLHandler.hostname url.Parse (ascii "example.com") = ascii "example.com" ∧
    checkSSLHandler.hostname url.Parse (ascii "example.com/path") = ascii "example.com" ∧
    checkSSLHandler.hostname url.Parse (ascii "https://example.com/path")
      = ascii "example.com" ∧
    checkSSLHandler.hostname url.Parse (ascii "https://example.com:8443/path")
      = ascii "example.com:8443" ∧
    checkSSLHandler.hostname url.Parse (ascii "https://example.com:8443/path")
      ≠ ascii "example.com" := by
  decide

/-- C2, as stated, fails at two non-empty parameters.  At `/path?x=1` neither parse yields
a host, the raw string is used, and the hostname the handler dials and verifies with holds
the path and the query.  At `https:/example.com` the retry parse yields the host `https:`,
so the hostname is the scheme text with its colon. -/
theorem hostname_keeps_path_query_or_scheme :
    ascii "/path?x=1" ≠ [] ∧
    checkSSLHandler.hostname url.Parse (ascii "/path?x=1") = ascii "/path?x=1" ∧
    47 ∈ checkSSLHandler.hostname url.Parse (ascii "/path?x=1") ∧
    63 ∈ checkSSLHandler.hostname url.Parse (ascii "/path?x=1") ∧
    Event.DialWithDialer { Timeout := 5 * time.Second } (ascii "tcp") (ascii "192.0.2.1:443")
        { ServerName := ascii "/path?x=1", InsecureSkipVerify := true }
      ∈ checkSSLHandler (exampleLib [exampleLeaf] none)
          (exampleQuery (ascii "192.0.2.1") (ascii "/path?x=1")) ∧
    Event.Verify exampleLeaf { DNSName := ascii "/path?x=1", Intermediates := ⟨[]⟩ }
      ∈ checkSSLHandler (exampleLib [exampleLeaf] none)
          (exampleQuery (ascii "192.0.2.1") (ascii "/path?x=1")) ∧
    ascii "https:/example.com" ≠ [] ∧
    checkSSLHandler.hostname url.Parse (ascii "https:/example.com") = ascii "https:" ∧
    hasScheme (checkSSLHandler.hostname url.Parse (ascii "https:/example.com")) = true ∧
    Event.DialWithDialer { Timeout := 5 * time.Second } (ascii "tcp") (ascii "192.0.2.1:443")
        { ServerName := ascii "https:", InsecureSkipVerify := true }
      ∈ checkSSLHandler (exampleLib [exampleLeaf] none)
          (exampleQuery (ascii "192.0.2.1") (ascii "https:/example.com")) := by
  decide

/-- C2, amended: for every non-empty raw `url` parameter the hostname the handler uses
after normalisation (as TLS ServerName and as VerifyOptions.DNSName) is non-empty; when one
of the two URL parses yields a host it contains no path or query fragment (no `/`, `?` or
`#`); it starts with no scheme whenever no colon is left in it; and when neither parse
yields a host it is the raw string, unchanged.  What a colon left in a parsed host carries
(a port, or scheme text as in `https:`) is not stated. -/
theorem hostname_nonempty_clean_outside_colon (L : Lib) (query : Values)
    (hP : L.Parse = url.Parse) (hs : query.Get (ascii "url") ≠ []) :
    checkSSLHandler.hostname url.Parse (query.Get (ascii "url")) ≠ [] ∧
    (∀ dialer network address config,
      Event.DialWithDialer dialer network address config ∈ checkSSLHandler L query →
        config.ServerName = checkSSLHandler.hostname url.Parse (query.Get (ascii "url"))) ∧
    (∀ leaf opts, Event.Verify leaf opts ∈ checkSSLHandler L query →
        opts.DNSName = checkSSLHandler.hostname url.Parse (query.Get (ascii "url"))) ∧
    (((∃ u, url.Parse (query.Get (ascii "url")) = .ok u ∧ u.Host ≠ []) ∨
        (∃ u, url.Parse (ascii "https://" ++ query.Get (ascii "url")) = .ok u ∧ u.Host ≠ [])) →
      ∀ x ∈ checkSSLHandler.hostname url.Parse (query.Get (ascii "url")),
        x ≠ 47 ∧ x ≠ 63 ∧ x ≠ 35) ∧
    (58 ∉ checkSSLHandler.hostname url.Parse (query.Get (ascii "url")) →
      hasScheme (checkSSLHandler.hostname url.Parse (query.Get (ascii "url"))) = false) ∧
    (¬ ((∃ u, url.Parse (query.Get (ascii "url")) = .ok u ∧ u.Host ≠ []) ∨
        (∃ u, url.Parse (ascii "https://" ++ query.Get (ascii "url")) = .ok u ∧ u.Host ≠ [])) →
      checkSSLHandler.hostname url.Parse (query.Get (ascii "url"))
        = query.Get (ascii "url")) := by
  have huse := handler_uses_hostname L query
  rw [hP] at huse
  refine ⟨hostname_ne_nil url.Parse _ hs, huse.1, huse.2, ?_,
    hasScheme_of_no_colon _, ?_⟩
  · generalize query.Get (ascii "url") = s
    intro hhost
    unfold checkSSLHandler.hostname
    dsimp only
    have retry : (∃ u, url.Parse s = .ok u ∧ u.Host ≠ []) ∨
        ∀ x ∈ (match url.Parse (ascii "https://" ++ s) with
          | .ok u => if u.Host ≠ [] then u.Host else s
          | .error _ => s), x ≠ 47 ∧ x ≠ 63 ∧ x ≠ 35 := by
      rcases hhost with h1 | ⟨u, hu, hne⟩
      · exact Or.inl h1
      · right
        rw [hu]
        dsimp only
        rw [if_pos hne]
        exact Parse_host_no_delimiter _ u hu
    cases hp : url.Parse s with
    | error e =>
      dsimp only
      rcases retry with ⟨u, hu, _⟩ | hr
      · rw [hp] at hu
        cases hu
      · exact hr
    | ok v =>
      dsimp only
      by_cases hv : v.Host ≠ []
      · rw [if_pos hv]
        exact Parse_host_no_delimiter _ v hp
      · rw [if_neg hv]
        rcases retry with ⟨u, hu, hne⟩ | hr
        · rw [hp] at hu
          cases hu
          exact absurd hne hv
        · exact hr
  · generalize query.Get (ascii "url") = s
    intro hno
    have h1 : ∀ u, url.Parse s = .ok u → u.Host = [] := by
      intro u hu
      by_contra hne
      exact hno (Or.inl ⟨u, hu, hne⟩)
    have h2 : ∀ u, url.Parse (ascii "https://" ++ s) = .ok u → u.Host = [] := by
      intro u hu
      by_contra hne
      exact hno (Or.inr ⟨u, hu, hne⟩)
    have retry : (match url.Parse (ascii "https://" ++ s) with
        | .ok u => if u.Host ≠ [] then u.Host else s
        | .error _ => s) = s := by
      cases hq : url.Parse (ascii "https://" ++ s) with
      | error e => rfl
      | ok w => simp only [if_neg (not_not.mpr (h2 w hq))]
    simp only [checkSSLHandler.hostname, retry]
    cases hp : url.Parse s with
    | error e => rfl
    | ok v => simp only [if_neg (not_not.mpr (h1 v hp))]

/-- Witness for C2, amended: the request `?ip=192.0.2.1&url=https://example.com/a?b#c`,
whose hostname `example.com` is non-empty, has no `/`, `?` or `#`, and starts with no
scheme. -/
theorem hostname_nonempty_clean_outside_colon_witness :
    checkSSLHandler.hostname url.Parse (ascii "https://example.com/a?b#c") ≠ [] ∧
    (∀ x ∈ checkSSLHandler.hostname url.Parse (ascii "https://example.com/a?b#c"),
      x ≠ 47 ∧ x ≠ 63 ∧ x ≠ 35) ∧
    hasScheme (checkSSLHandler.hostname url.Parse (ascii "https://example.com/a?b#c"))
      = false := by
  have h := hostname_nonempty_clean_outside_colon (exampleLib [exampleLeaf] none)
    (exampleQuery (ascii "192.0.2.1") (ascii "https://example.com/a?b#c")) rfl (by decide)
  have hu : url.Parse (ascii "https://example.com/a?b#c") =
      .ok { Scheme := ascii "https", Host := ascii "example.com", Path := ascii "/a",
            RawQuery := ascii "b", Fragment := ascii "c" } := rfl
  exact ⟨h.1, h.2.2.2.1 (Or.inl ⟨_, hu, by decide⟩), h.2.2.2.2.1 (by decide)⟩

/-- C10: for every input `host:port` given without a scheme (a non-empty host of letters,
digits, `-` and `.`, a port of digits), normalisation does not strip the port: the
normalised hostname is `host:port` itself, and that string is the TLS ServerName of the
dial the handler makes and the DNSName of every verification it runs. -/
theorem schemeless_host_port_keeps_port
    (dial : net.Dialer → GoString → GoString → tls.Config → Except GoString tls.Conn)
    (verify : x509.Certificate → x509.VerifyOptions → Option GoString)
    (query : Values) (h p : GoString)
    (hip : query.Get (ascii "ip") ≠ [])
    (hurl : query.Get (ascii "url") = h ++ 58 :: p)
    (hh : h ≠ []) (hhost : ∀ c ∈ h, isHostByte c = true)
    (hport : ∀ c ∈ p, url.isDigit c = true) :
    checkSSLHandler.hostname url.Parse (h ++ 58 :: p) = h ++ 58 :: p ∧
    (∃ rest, checkSSLHandler (goLib dial verify) query =
      .DialWithDialer { Timeout := 5 * time.Second } (ascii "tcp")
        (net.JoinHostPort (query.Get (ascii "ip")) (ascii "443"))
        { ServerName := h ++ 58 :: p, InsecureSkipVerify := true } :: rest) ∧
    (∀ leaf opts, Event.Verify leaf opts ∈ checkSSLHandler (goLib dial verify) query →
      opts.DNSName = h ++ 58 :: p) := by
  have hn := hostname_host_port h p hh hhost hport
  have hne : query.Get (ascii "url") ≠ [] := by
    rw [hurl]
    simp
  refine ⟨hn, ?_, ?_⟩
  · obtain ⟨rest, hrest⟩ := handler_dials_first (goLib dial verify) query ⟨hip, hne⟩
    refine ⟨rest, ?_⟩
    rw [hrest]
    simp only [checkSSLHandler.dialEvent, goLib, hurl, hn]
  · intro leaf opts hmem
    have := (handler_uses_hostname (goLib dial verify) query).2 leaf opts hmem
    rw [this]
    simp only [goLib, hurl, hn]

/-- Witness for C10: the request `?ip=192.0.2.1&url=example.com:8443`. -/
theorem schemeless_host_port_keeps_port_witness :
    checkSSLHandler.hostname url.Parse (ascii "example.com" ++ 58 :: ascii "8443")
      = ascii "example.com" ++ 58 :: ascii "8443" ∧
    (∃ rest, checkSSLHandler (goLib (fun _ _ _ _ => .ok ⟨[exampleLeaf]⟩) (fun _ _ => none))
        (exampleQuery (ascii "192.0.2.1") (ascii "example.com:8443")) =
      .DialWithDialer { Timeout := 5 * time.Second } (ascii "tcp")
        (net.JoinHostPort ((exampleQuery (ascii "192.0.2.1") (ascii "example.com:8443")).Get
          (ascii "ip")) (ascii "443"))
        { ServerName := ascii "example.com" ++ 58 :: ascii "8443",
          InsecureSkipVerify := true } :: rest) ∧
    (∀ leaf opts, Event.Verify leaf opts ∈
        checkSSLHandler (goLib (fun _ _ _ _ => .ok ⟨[exampleLeaf]⟩) (fun _ _ => none))
          (exampleQuery (ascii "192.0.2.1") (ascii "example.com:8443")) →
      opts.DNSName = ascii "example.com" ++ 58 :: ascii "8443") :=
  schemeless_host_port_keeps_port _ _
    (exampleQuery (ascii "192.0.2.1") (ascii "example.com:8443"))
    (ascii "example.com") (ascii "8443") (by decide) (by decide) (by decide) (by decide)
    (by decide)

/-! ## The claims at concrete requests -/

/-- Witness for C5: a server presenting `exampleLeaf` and `exampleCA`, whose leaf the
verifier rejects as expired. -/
theorem chainValidation_two_forms_witness :
    ∃ conn leaf others,
      checkSSLHandler.dialed
          (exampleLib [exampleLeaf, exampleCA] (some (ascii "x509: certificate has expired")))
          (exampleQuery (ascii "192.0.2.1") (ascii "example.com")) = .ok conn ∧
      conn.PeerCertificates = leaf :: others ∧
      (ascii "Certificate chain verification failed: x509: certificate has expired"
          = ascii "Certificate chain is valid." ↔
        (exampleLib [exampleLeaf, exampleCA] (some (ascii "x509: certificate has expired"))).Verify
          leaf (checkSSLHandler.validationOpts
            (exampleLib [exampleLeaf, exampleCA] (some (ascii "x509: certificate has expired")))
            (exampleQuery (ascii "192.0.2.1") (ascii "example.com")) (leaf :: others)) = none) ∧
      (∀ e,
        (exampleLib [exampleLeaf, exampleCA] (some (ascii "x509: certificate has expired"))).Verify
          leaf (checkSSLHandler.validationOpts
            (exampleLib [exampleLeaf, exampleCA] (some (ascii "x509: certificate has expired")))
            (exampleQuery (ascii "192.0.2.1") (ascii "example.com")) (leaf :: others)) = some e →
        ascii "Certificate chain verification failed: x509: certificate has expired"
          = ascii "Certificate chain verification failed: " ++ e) :=
  chainValidation_two_forms
    (exampleLib [exampleLeaf, exampleCA] (some (ascii "x509: certificate has expired")))
    (exampleQuery (ascii "192.0.2.1") (ascii "example.com"))
    { TargetURL := ascii "https://example.com"
      Certificates := checkSSLHandler.certInfos [exampleLeaf, exampleCA]
      ChainValidation :=
        ascii "Certificate chain verification failed: x509: certificate has expired" }
    (by decide)

/-- Witness for C6: the request without `ip` is answered 400 and no dial is made; the
request with both parameters is not answered 400. -/
theorem missing_parameter_gives_400_witness :
    checkSSLHandler refusingLib (exampleQuery [] (ascii "example.com")) =
      [.Error (ascii "\x7b\"error\": \"Query parameters 'ip' and 'url' are required.\"\x7d")
        400] ∧
    ∀ body, Event.Error body 400 ∉
      checkSSLHandler refusingLib (exampleQuery (ascii "192.0.2.1") (ascii "example.com")) :=
  ⟨((missing_parameter_gives_400 refusingLib (exampleQuery [] (ascii "example.com"))).1
      (Or.inl (by decide))).1,
   (missing_parameter_gives_400 refusingLib
      (exampleQuery (ascii "192.0.2.1") (ascii "example.com"))).2 ⟨by decide, by decide⟩⟩

/-- Witness for C7: a refused connection is answered 500 with the error text. -/
theorem outcome_classified_by_connection_witness :
    checkSSLHandler refusingLib (exampleQuery (ascii "192.0.2.1") (ascii "example.com")) =
      [checkSSLHandler.dialEvent refusingLib
         (exampleQuery (ascii "192.0.2.1") (ascii "example.com")),
       .Error (ascii "\x7b\"error\": \"Failed to connect via TLS: " ++
         ascii "dial tcp 192.0.2.1:443: connect: connection refused" ++ ascii "\"\x7d") 500] :=
  (outcome_classified_by_connection refusingLib
    (exampleQuery (ascii "192.0.2.1") (ascii "example.com")) ⟨by decide, by decide⟩).1 _ rfl
